import Mathlib

/-!
Verification of the Triton VM core (instruction model, VM stepper, driver
loops, and u32-table height accounting) against its natural-language
specification.  Definitions are shallow embeddings of the Rust sources in
`src/triton-vm/src/`; the operand-stack helpers and the error taxonomy live
in modules that are not part of the sources at hand and are modelled from
the specification, as indicated by their doc comments.
-/

set_option maxHeartbeats 1600000

namespace TritonVM

/-- Prime modulus of the base field: `p = 2^64 - 2^32 + 1`. -/
def P : ℕ := 2 ^ 64 - 2 ^ 32 + 1

/-- Base field element (`BFieldElement`): residue modulo `P`. -/
abbrev F : Type := ZMod P

theorem P_pos : 0 < P := by norm_num [P]

instance : NeZero P := ⟨by norm_num [P]⟩

/-- Value of a base field element as a natural number (`BFieldElement::value`),
always `< P`. -/
def bfeValue (x : F) : ℕ := ZMod.val x

/-- Extension field element (`XFieldElement`): cubic extension with coefficient
triples.  Arithmetic follows the external `twenty_first` crate (Shah polynomial
`x^3 - x + 1`, so `x^3 ≡ x - 1`). -/
structure XFieldElement where
  c0 : F
  c1 : F
  c2 : F
deriving DecidableEq

namespace XFieldElement

/-- Componentwise addition of extension field elements. -/
def xadd (a b : XFieldElement) : XFieldElement :=
  ⟨a.c0 + b.c0, a.c1 + b.c1, a.c2 + b.c2⟩

/-- Multiplication of extension field elements modulo `x^3 - x + 1`. -/
def xmul (a b : XFieldElement) : XFieldElement :=
  let d3 : F := a.c1 * b.c2 + a.c2 * b.c1
  let d4 : F := a.c2 * b.c2
  ⟨a.c0 * b.c0 - d3,
   a.c0 * b.c1 + a.c1 * b.c0 + d3 - d4,
   a.c0 * b.c2 + a.c1 * b.c1 + a.c2 * b.c0 + d4⟩

/-- Scalar multiplication by a base field element (`lift` then multiply). -/
def xbmul (l : F) (a : XFieldElement) : XFieldElement :=
  ⟨l * a.c0, l * a.c1, l * a.c2⟩

/-- The zero element of the extension field. -/
def xzero : XFieldElement := ⟨0, 0, 0⟩

end XFieldElement

/-- Fermat inverse as computed by `BFieldElement::inverse` (`x^(p-2)`). -/
def bfeInverse (x : F) : F := x ^ (P - 2)

/-- Modular exponentiation `BFieldElement::mod_pow`. -/
def bfePow (x : F) (n : ℕ) : F := x ^ n

/-- A Triton VM instruction (`AnInstruction<BFieldElement>` from
`instruction.rs`, with `call` addresses already resolved to absolute base
field elements).  `Dup`/`Swap` carry an operand-stack register index. -/
inductive Instruction where
  | Pop
  | Push (arg : F)
  | Divine
  | Dup (arg : Fin 16)
  | Swap (arg : Fin 16)
  | Nop
  | Skiz
  | Call (dest : F)
  | Return
  | Recurse
  | Assert
  | Halt
  | ReadMem
  | WriteMem
  | Hash
  | DivineSibling
  | AssertVector
  | AbsorbInit
  | Absorb
  | Squeeze
  | Add
  | Mul
  | Invert
  | Eq
  | Split
  | Lt
  | And
  | Xor
  | Log2Floor
  | Pow
  | Div
  | PopCount
  | XxAdd
  | XxMul
  | XInvert
  | XbMul
  | ReadIo
  | WriteIo
deriving DecidableEq

namespace Instruction

/-- Opcode assignment from `AnInstruction::opcode`. -/
def opcode : Instruction → ℕ
  | Pop => 2
  | Push _ => 1
  | Divine => 8
  | Dup _ => 9
  | Swap _ => 17
  | Nop => 16
  | Skiz => 10
  | Call _ => 25
  | Return => 24
  | Recurse => 32
  | Assert => 18
  | Halt => 0
  | ReadMem => 40
  | WriteMem => 26
  | Hash => 48
  | DivineSibling => 56
  | AssertVector => 64
  | AbsorbInit => 72
  | Absorb => 80
  | Squeeze => 88
  | Add => 34
  | Mul => 42
  | Invert => 96
  | Eq => 50
  | Split => 4
  | Lt => 6
  | And => 14
  | Xor => 22
  | Log2Floor => 12
  | Pow => 30
  | Div => 20
  | PopCount => 28
  | XxAdd => 104
  | XxMul => 112
  | XInvert => 120
  | XbMul => 58
  | ReadIo => 128
  | WriteIo => 66

/-- Opcode as a base field element (`AnInstruction::opcode_b`). -/
def opcodeB (i : Instruction) : F := (opcode i : ℕ)

/-- Size in program memory (`AnInstruction::size`): 2 for instructions with an
immediate argument, else 1. -/
def size (i : Instruction) : ℕ :=
  match i with
  | Push _ | Dup _ | Swap _ | Call _ => 2
  | _ => 1

/-- Argument of the instruction, if present (`Instruction::arg`). -/
def arg : Instruction → Option F
  | Push a => some a
  | Call a => some a
  | Dup a => some ((a : ℕ) : F)
  | Swap a => some ((a : ℕ) : F)
  | _ => none

/-- `Instruction::has_arg`: true iff the instruction carries an immediate. -/
def hasArg (i : Instruction) : Bool := (arg i).isSome

/-- Change of operand stack size caused by the instruction
(`AnInstruction::op_stack_size_influence`). -/
def opStackSizeInfluence : Instruction → ℤ
  | Pop => -1
  | Push _ => 1
  | Divine => 1
  | Dup _ => 1
  | Swap _ => 0
  | Nop => 0
  | Skiz => -1
  | Call _ => 0
  | Return => 0
  | Recurse => 0
  | Assert => -1
  | Halt => 0
  | ReadMem => 1
  | WriteMem => -1
  | Hash => 0
  | DivineSibling => 0
  | AssertVector => 0
  | AbsorbInit => 0
  | Absorb => 0
  | Squeeze => 0
  | Add => -1
  | Mul => -1
  | Invert => 0
  | Eq => -1
  | Split => 1
  | Lt => -1
  | And => -1
  | Xor => -1
  | Log2Floor => 0
  | Pow => -1
  | Div => 0
  | PopCount => 0
  | XxAdd => 0
  | XxMul => 0
  | XInvert => 0
  | XbMul => -1
  | ReadIo => 1
  | WriteIo => -1

/-- `AnInstruction::shrinks_op_stack`. -/
def shrinksOpStack (i : Instruction) : Prop := opStackSizeInfluence i < 0

instance (i : Instruction) : Decidable (shrinksOpStack i) := by
  unfold shrinksOpStack; infer_instance

/-- `AnInstruction::is_u32_instruction`. -/
def isU32Instruction (i : Instruction) : Prop :=
  i = Split ∨ i = Lt ∨ i = And ∨ i = Xor ∨ i = Log2Floor ∨ i = Pow ∨
    i = Div ∨ i = PopCount

instance (i : Instruction) : Decidable (isU32Instruction i) := by
  unfold isU32Instruction; infer_instance

/-- The i-th instruction bit (`AnInstruction::ib`). -/
def ib (i : Instruction) (bit : ℕ) : F := (((opcode i >>> bit) % 2 : ℕ) : F)

end Instruction

/-- Modelled from the spec: the error taxonomy exposed across the boundary
(`error.rs` is not among the sources at hand).  Constructor names follow the
spec's §6 list; `vm.rs` raises `EmptyPublicInput`/`EmptySecretInput` as plain
message errors for `read_io`/`divine` with an empty queue. -/
inductive InstructionError where
  | opStackTooShallow
  | failedU32Conversion (value : F)
  | inverseOfZero
  | logarithmOfZero
  | divisionByZero
  | assertionFailed (ip : ℕ) (cycle : ℕ) (value : F)
  | jumpStackIsEmpty
  | instructionPointerOverflow (ip : ℕ)
  | emptyPublicInput
  | emptySecretInput
deriving DecidableEq

/-- A call from the processor to a co-processor (`CoProcessorCall` in `vm.rs`).
A Tip5 trace is a list of permutation-state rows; a state row is a list of 16
base field elements. -/
inductive CoProcessorCall where
  | tip5Trace (instruction : Instruction) (trace : List (List F))
  | u32TableEntries (entries : List (Instruction × F × F))
deriving DecidableEq

/-- The state of the VM (`VMState` in `vm.rs`).  The operand stack is a list
with the top at the head; RAM is a total function with unset addresses reading
as 0, matching `memory_get`'s default.  `cycleCount` mirrors the `u32` cycle
register, hence the `% 2^32` at its increment site. -/
structure VMState where
  program : List Instruction
  publicInput : List F
  secretInput : List F
  publicOutput : List F
  ram : F → F
  opStack : List F
  jumpStack : List (F × F)
  cycleCount : ℕ
  instructionPointer : ℕ
  previousInstruction : F
  ramp : ℕ
  spongeState : List F
  halting : Bool

/-- External collaborators from the `twenty_first` crate, outside this
repository: the Tip5 permutation trace, the domain-separated initial sponge
states, the extension-field inverse, and the program digest used to seed the
operand stack.  All theorems below hold for every choice of these. -/
structure ExternFns where
  tip5Trace : List F → List (List F)
  fixedLengthInitialState : List F
  variableLengthInitialState : List F
  xfeInverse : XFieldElement → XFieldElement
  programDigest : List Instruction → List F

/-- Modelled from the spec: `OpStack::peek_at` (op_stack.rs is not among the
sources at hand) reads the i-th element from the top without popping. -/
def peekAt (st : List F) (i : ℕ) : F := st.getD i 0

/-- Modelled from the spec: `OpStack::swap` exchanges the top of the stack
with its i-th element. -/
def swapTop (st : List F) (i : ℕ) : List F :=
  (st.set 0 (st.getD i 0)).set i (st.getD 0 0)

/-- Modelled from the spec: `OpStack::pop_multiple` pops `n` elements one at a
time, topmost first; popping from an empty stack fails with the stack fully
drained. -/
def popMultiple : ℕ → List F → Option (List F × List F)
  | 0, st => some ([], st)
  | _ + 1, [] => none
  | n + 1, x :: st =>
    match popMultiple n st with
    | some (xs, rest) => some (x :: xs, rest)
    | none => none

/-- Modelled from the spec: `VMState::secret_input_pop_multiple` drains `n`
elements from the front of the secret input queue. -/
def queuePopMultiple : ℕ → List F → Option (List F × List F)
  | 0, q => some ([], q)
  | _ + 1, [] => none
  | n + 1, x :: q =>
    match queuePopMultiple n q with
    | some (xs, rest) => some (x :: xs, rest)
    | none => none

/-- Result of one VM step: success with the new state and an optional
co-processor call, or failure.  Failure carries the state as mutated up to the
point of failure, mirroring Rust's `&mut self` semantics. -/
inductive StepRes where
  | ok (s : VMState) (call : Option CoProcessorCall)
  | err (e : InstructionError) (s : VMState)

namespace VMState

/-- The current instruction (`VMState::current_instruction`), if the
instruction pointer is in bounds. -/
def currentInstruction (s : VMState) : Option Instruction :=
  s.program.get? s.instructionPointer

/-- The next instruction on the tape, skipping the current instruction's
argument (`VMState::next_instruction`). -/
def nextInstruction (s : VMState) : Option Instruction :=
  match currentInstruction s with
  | none => none
  | some i => s.program.get? (s.instructionPointer + i.size)

/-- RAM read with default 0 (`VMState::memory_get`). -/
def memoryGet (s : VMState) (address : F) : F := s.ram address

/-- `VMState::instruction_pop`. -/
def instructionPop (s : VMState) : StepRes :=
  match s.opStack with
  | [] => .err .opStackTooShallow s
  | _ :: rest =>
    .ok { s with opStack := rest,
                 instructionPointer := s.instructionPointer + 1 } none

/-- `VMState::instruction_push`. -/
def instructionPush (arg : F) (s : VMState) : StepRes :=
  .ok { s with opStack := arg :: s.opStack,
               instructionPointer := s.instructionPointer + 2 } none

/-- `VMState::instruction_divine`. -/
def instructionDivine (s : VMState) : StepRes :=
  match s.secretInput with
  | [] => .err .emptySecretInput s
  | x :: q =>
    .ok { s with secretInput := q, opStack := x :: s.opStack,
                 instructionPointer := s.instructionPointer + 1 } none

/-- `VMState::instruction_dup`. -/
def instructionDup (arg : Fin 16) (s : VMState) : StepRes :=
  .ok { s with opStack := peekAt s.opStack (arg : ℕ) :: s.opStack,
               instructionPointer := s.instructionPointer + 2 } none

/-- `VMState::instruction_swap`. -/
def instructionSwap (arg : Fin 16) (s : VMState) : StepRes :=
  .ok { s with opStack := swapTop s.opStack (arg : ℕ),
               instructionPointer := s.instructionPointer + 2 } none

/-- `VMState::instruction_nop`. -/
def instructionNop (s : VMState) : StepRes :=
  .ok { s with instructionPointer := s.instructionPointer + 1 } none

/-- `VMState::instruction_skiz`.  The current instruction is `skiz` of size 1,
so the next instruction sits at `ip + 1`. -/
def instructionSkiz (s : VMState) : StepRes :=
  match s.opStack with
  | [] => .err .opStackTooShallow s
  | elem :: rest =>
    let s₁ := { s with opStack := rest }
    if elem = 0 then
      match s₁.nextInstruction with
      | none => .err (.instructionPointerOverflow (s₁.instructionPointer + 1)) s₁
      | some ni =>
        .ok { s₁ with instructionPointer := s₁.instructionPointer + 1 + ni.size } none
    else
      .ok { s₁ with instructionPointer := s₁.instructionPointer + 1 } none

/-- `VMState::instruction_call`; the return address is computed in `u32`
arithmetic. -/
def instructionCall (addr : F) (s : VMState) : StepRes :=
  let oPlus2 : ℕ := (s.instructionPointer + 2) % 2 ^ 32
  .ok { s with jumpStack := ((oPlus2 : F), addr) :: s.jumpStack,
               instructionPointer := ZMod.val addr } none

/-- `VMState::instruction_return`. -/
def instructionReturn (s : VMState) : StepRes :=
  match s.jumpStack with
  | [] => .err .jumpStackIsEmpty s
  | (origAddr, _) :: rest =>
    .ok { s with jumpStack := rest, instructionPointer := ZMod.val origAddr } none

/-- `VMState::instruction_recurse`. -/
def instructionRecurse (s : VMState) : StepRes :=
  match s.jumpStack with
  | [] => .err .jumpStackIsEmpty s
  | (_, destAddr) :: _ =>
    .ok { s with instructionPointer := ZMod.val destAddr } none

/-- `VMState::instruction_assert`. -/
def instructionAssert (s : VMState) : StepRes :=
  match s.opStack with
  | [] => .err .opStackTooShallow s
  | elem :: rest =>
    if elem = 1 then
      .ok { s with opStack := rest,
                   instructionPointer := s.instructionPointer + 1 } none
    else
      .err (.assertionFailed s.instructionPointer s.cycleCount elem)
        { s with opStack := rest }

/-- `VMState::instruction_halt`. -/
def instructionHalt (s : VMState) : StepRes :=
  .ok { s with halting := true,
               instructionPointer := s.instructionPointer + 1 } none

/-- `VMState::instruction_read_mem`. -/
def instructionReadMem (s : VMState) : StepRes :=
  let rampElem := peekAt s.opStack 0
  let ramv := s.memoryGet rampElem
  .ok { s with opStack := ramv :: s.opStack, ramp := ZMod.val rampElem,
               instructionPointer := s.instructionPointer + 1 } none

/-- `VMState::instruction_write_mem`; the RAM pointer is read from `ST1`
before popping the value to write. -/
def instructionWriteMem (s : VMState) : StepRes :=
  match s.opStack with
  | [] => .err .opStackTooShallow s
  | ramv :: rest =>
    let rampElem := peekAt s.opStack 1
    .ok { s with opStack := rest,
                 ram := Function.update s.ram rampElem ramv,
                 ramp := ZMod.val rampElem,
                 instructionPointer := s.instructionPointer + 1 } none

/-- `VMState::instruction_hash`: pop 10 rate elements, run the permutation on
the fixed-length-domain state, push the 5 digest elements in reverse order and
then 5 zeros, and emit the Tip5 trace. -/
def instructionHash (ext : ExternFns) (s : VMState) : StepRes :=
  match popMultiple 10 s.opStack with
  | none => .err .opStackTooShallow { s with opStack := [] }
  | some (toHash, rest) =>
    let hashInput := toHash ++ ext.fixedLengthInitialState.drop 10
    let trace := ext.tip5Trace hashInput
    let lastRow := trace.getLastD []
    let d : ℕ → F := fun j => lastRow.getD j 0
    .ok { s with
            opStack := 0 :: 0 :: 0 :: 0 :: 0 ::
              d 0 :: d 1 :: d 2 :: d 3 :: d 4 :: rest,
            instructionPointer := s.instructionPointer + 1 }
      (some (.tip5Trace .Hash trace))

/-- `VMState::instruction_absorb`, handling both `absorb_init` and `absorb`
(the Rust method re-reads the current instruction to decide on the sponge
reset and to tag the emitted trace). -/
def instructionAbsorb (ext : ExternFns) (i : Instruction) (s : VMState) : StepRes :=
  match popMultiple 10 s.opStack with
  | none => .err .opStackTooShallow { s with opStack := [] }
  | some (toAbsorb, rest) =>
    let baseSponge :=
      if i = .AbsorbInit then ext.variableLengthInitialState else s.spongeState
    let spongeIn := toAbsorb ++ baseSponge.drop 10
    let trace := ext.tip5Trace spongeIn
    .ok { s with opStack := toAbsorb ++ rest,
                 spongeState := trace.getLastD [],
                 instructionPointer := s.instructionPointer + 1 }
      (some (.tip5Trace i trace))

/-- `VMState::instruction_squeeze`: replace the top 10 elements with the
sponge's rate, then permute the sponge. -/
def instructionSqueeze (ext : ExternFns) (s : VMState) : StepRes :=
  match popMultiple 10 s.opStack with
  | none => .err .opStackTooShallow { s with opStack := [] }
  | some (_, rest) =>
    let rate := (List.range 10).map fun j => s.spongeState.getD j 0
    let trace := ext.tip5Trace s.spongeState
    .ok { s with opStack := rate ++ rest,
                 spongeState := trace.getLastD [],
                 instructionPointer := s.instructionPointer + 1 }
      (some (.tip5Trace .Squeeze trace))

/-- `VMState::put_known_digest_on_correct_side`. -/
def putKnownDigestOnCorrectSide (nodeIndex : ℕ) (known sibling : List F) :
    List F × List F :=
  if nodeIndex % 2 = 0 then (known, sibling) else (sibling, known)

/-- `VMState::instruction_divine_sibling`: discard `ST0..ST4`, pop the known
digest from `ST5..ST9` and the node index from `ST10`, push the parent node
index, read the sibling digest from the secret input (reversed), and place the
two digests according to the node index's parity. -/
def instructionDivineSibling (s : VMState) : StepRes :=
  match popMultiple 5 s.opStack with
  | none => .err .opStackTooShallow { s with opStack := [] }
  | some (_, st1) =>
    match popMultiple 5 st1 with
    | none => .err .opStackTooShallow { s with opStack := [] }
    | some (knownDigest, st2) =>
      match st2 with
      | [] => .err .opStackTooShallow { s with opStack := [] }
      | ni :: st3 =>
        if ZMod.val ni < 2 ^ 32 then
          let nodeIndex := ZMod.val ni
          let parent : F := ((nodeIndex / 2 : ℕ) : F)
          match queuePopMultiple 5 s.secretInput with
          | none =>
            .err .emptySecretInput
              { s with opStack := parent :: st3, secretInput := [] }
          | some (sib, q) =>
            let siblingDigest := sib.reverse
            let lr := putKnownDigestOnCorrectSide nodeIndex knownDigest siblingDigest
            .ok { s with opStack := lr.1 ++ lr.2 ++ parent :: st3,
                         secretInput := q,
                         instructionPointer := s.instructionPointer + 1 } none
        else .err (.failedU32Conversion ni) { s with opStack := st3 }

/-- `VMState::instruction_assert_vector`, comparing `ST0..ST4` with
`ST5..ST9`. -/
def instructionAssertVector (s : VMState) : StepRes :=
  if peekAt s.opStack 0 = peekAt s.opStack 5 ∧
     peekAt s.opStack 1 = peekAt s.opStack 6 ∧
     peekAt s.opStack 2 = peekAt s.opStack 7 ∧
     peekAt s.opStack 3 = peekAt s.opStack 8 ∧
     peekAt s.opStack 4 = peekAt s.opStack 9 then
    .ok { s with instructionPointer := s.instructionPointer + 1 } none
  else
    .err (.assertionFailed s.instructionPointer s.cycleCount (peekAt s.opStack 0)) s

/-- `VMState::instruction_add`. -/
def instructionAdd (s : VMState) : StepRes :=
  match s.opStack with
  | lhs :: rhs :: rest =>
    .ok { s with opStack := (lhs + rhs) :: rest,
                 instructionPointer := s.instructionPointer + 1 } none
  | _ => .err .opStackTooShallow { s with opStack := [] }

/-- `VMState::instruction_mul`. -/
def instructionMul (s : VMState) : StepRes :=
  match s.opStack with
  | lhs :: rhs :: rest =>
    .ok { s with opStack := (lhs * rhs) :: rest,
                 instructionPointer := s.instructionPointer + 1 } none
  | _ => .err .opStackTooShallow { s with opStack := [] }

/-- `VMState::instruction_invert`. -/
def instructionInvert (s : VMState) : StepRes :=
  match s.opStack with
  | [] => .err .opStackTooShallow s
  | elem :: rest =>
    if elem = 0 then .err .inverseOfZero { s with opStack := rest }
    else
      .ok { s with opStack := bfeInverse elem :: rest,
                   instructionPointer := s.instructionPointer + 1 } none

/-- `VMState::instruction_eq`. -/
def instructionEq (s : VMState) : StepRes :=
  match s.opStack with
  | lhs :: rhs :: rest =>
    .ok { s with opStack := (if lhs = rhs then (1 : F) else 0) :: rest,
                 instructionPointer := s.instructionPointer + 1 } none
  | _ => .err .opStackTooShallow { s with opStack := [] }

/-- `VMState::instruction_split`. -/
def instructionSplit (s : VMState) : StepRes :=
  match s.opStack with
  | [] => .err .opStackTooShallow s
  | elem :: rest =>
    let lo : F := ((ZMod.val elem &&& 0xffffffff : ℕ) : F)
    let hi : F := ((ZMod.val elem >>> 32 : ℕ) : F)
    .ok { s with opStack := lo :: hi :: rest,
                 instructionPointer := s.instructionPointer + 1 }
      (some (.u32TableEntries [(.Split, lo, hi)]))

/-- `VMState::instruction_lt`. -/
def instructionLt (s : VMState) : StepRes :=
  match s.opStack with
  | [] => .err .opStackTooShallow s
  | a :: rest =>
    if ZMod.val a < 2 ^ 32 then
      match rest with
      | [] => .err .opStackTooShallow { s with opStack := [] }
      | b :: rest₂ =>
        if ZMod.val b < 2 ^ 32 then
          let lhs := ZMod.val a
          let rhs := ZMod.val b
          .ok { s with
                  opStack := (if lhs < rhs then (1 : F) else 0) :: rest₂,
                  instructionPointer := s.instructionPointer + 1 }
            (some (.u32TableEntries [(.Lt, (lhs : F), (rhs : F))]))
        else .err (.failedU32Conversion b) { s with opStack := rest₂ }
    else .err (.failedU32Conversion a) { s with opStack := rest }

/-- `VMState::instruction_and`. -/
def instructionAnd (s : VMState) : StepRes :=
  match s.opStack with
  | [] => .err .opStackTooShallow s
  | a :: rest =>
    if ZMod.val a < 2 ^ 32 then
      match rest with
      | [] => .err .opStackTooShallow { s with opStack := [] }
      | b :: rest₂ =>
        if ZMod.val b < 2 ^ 32 then
          let lhs := ZMod.val a
          let rhs := ZMod.val b
          .ok { s with opStack := ((lhs &&& rhs : ℕ) : F) :: rest₂,
                       instructionPointer := s.instructionPointer + 1 }
            (some (.u32TableEntries [(.And, (lhs : F), (rhs : F))]))
        else .err (.failedU32Conversion b) { s with opStack := rest₂ }
    else .err (.failedU32Conversion a) { s with opStack := rest }

/-- `VMState::instruction_xor`.  The emitted u32 co-processor entry is tagged
with instruction `and`, since `a ⊕ b = a + b - 2·(a ∧ b)`. -/
def instructionXor (s : VMState) : StepRes :=
  match s.opStack with
  | [] => .err .opStackTooShallow s
  | a :: rest =>
    if ZMod.val a < 2 ^ 32 then
      match rest with
      | [] => .err .opStackTooShallow { s with opStack := [] }
      | b :: rest₂ =>
        if ZMod.val b < 2 ^ 32 then
          let lhs := ZMod.val a
          let rhs := ZMod.val b
          .ok { s with opStack := ((lhs ^^^ rhs : ℕ) : F) :: rest₂,
                       instructionPointer := s.instructionPointer + 1 }
            (some (.u32TableEntries [(.And, (lhs : F), (rhs : F))]))
        else .err (.failedU32Conversion b) { s with opStack := rest₂ }
    else .err (.failedU32Conversion a) { s with opStack := rest }

/-- Number of set bits, as computed by `u32::count_ones`. -/
def popCountNat (n : ℕ) : ℕ := (Nat.digits 2 n).sum

/-- `VMState::instruction_log_2_floor`. -/
def instructionLog2Floor (s : VMState) : StepRes :=
  match s.opStack with
  | [] => .err .opStackTooShallow s
  | a :: rest =>
    if ZMod.val a < 2 ^ 32 then
      let lhs := ZMod.val a
      if lhs = 0 then .err .logarithmOfZero { s with opStack := rest }
      else
        .ok { s with opStack := ((Nat.log2 lhs : ℕ) : F) :: rest,
                     instructionPointer := s.instructionPointer + 1 }
          (some (.u32TableEntries [(.Log2Floor, (lhs : F), 0)]))
    else .err (.failedU32Conversion a) { s with opStack := rest }

/-- `VMState::instruction_pow`: the base is an arbitrary field element, the
exponent must be a u32. -/
def instructionPow (s : VMState) : StepRes :=
  match s.opStack with
  | [] => .err .opStackTooShallow s
  | lhs :: rest =>
    match rest with
    | [] => .err .opStackTooShallow { s with opStack := [] }
    | b :: rest₂ =>
      if ZMod.val b < 2 ^ 32 then
        let rhs := ZMod.val b
        .ok { s with opStack := bfePow lhs rhs :: rest₂,
                     instructionPointer := s.instructionPointer + 1 }
          (some (.u32TableEntries [(.Pow, lhs, (rhs : F))]))
      else .err (.failedU32Conversion b) { s with opStack := rest₂ }

/-- `VMState::instruction_div`: fails with `DivisionByZero` on a zero
denominator, otherwise pushes quotient then remainder and emits an `lt` and a
`split` u32 co-processor entry. -/
def instructionDiv (s : VMState) : StepRes :=
  match s.opStack with
  | [] => .err .opStackTooShallow s
  | a :: rest =>
    if ZMod.val a < 2 ^ 32 then
      match rest with
      | [] => .err .opStackTooShallow { s with opStack := [] }
      | b :: rest₂ =>
        if ZMod.val b < 2 ^ 32 then
          let numerator := ZMod.val a
          let denominator := ZMod.val b
          if denominator = 0 then .err .divisionByZero { s with opStack := rest₂ }
          else
            let quotient : F := ((numerator / denominator : ℕ) : F)
            let remainder : F := ((numerator % denominator : ℕ) : F)
            .ok { s with opStack := remainder :: quotient :: rest₂,
                         instructionPointer := s.instructionPointer + 1 }
              (some (.u32TableEntries
                [(.Lt, remainder, (denominator : F)),
                 (.Split, (numerator : F), quotient)]))
        else .err (.failedU32Conversion b) { s with opStack := rest₂ }
    else .err (.failedU32Conversion a) { s with opStack := rest }

/-- `VMState::instruction_pop_count`. -/
def instructionPopCount (s : VMState) : StepRes :=
  match s.opStack with
  | [] => .err .opStackTooShallow s
  | a :: rest =>
    if ZMod.val a < 2 ^ 32 then
      let lhs := ZMod.val a
      .ok { s with opStack := ((popCountNat lhs : ℕ) : F) :: rest,
                   instructionPointer := s.instructionPointer + 1 }
        (some (.u32TableEntries [(.PopCount, (lhs : F), 0)]))
    else .err (.failedU32Conversion a) { s with opStack := rest }

/-- Modelled from the spec: `OpStack::pop_extension_field_element` pops three
coefficients, topmost first. -/
def popExtension (st : List F) : Option (XFieldElement × List F) :=
  match popMultiple 3 st with
  | none => none
  | some (cs, rest) => some (⟨cs.getD 0 0, cs.getD 1 0, cs.getD 2 0⟩, rest)

/-- Modelled from the spec: `OpStack::peek_at_top_extension_field_element`. -/
def peekAtTopExtension (st : List F) : XFieldElement :=
  ⟨peekAt st 0, peekAt st 1, peekAt st 2⟩

/-- `VMState::instruction_xx_add`. -/
def instructionXxAdd (s : VMState) : StepRes :=
  match popExtension s.opStack with
  | none => .err .opStackTooShallow { s with opStack := [] }
  | some (lhs, rest) =>
    let rhs := peekAtTopExtension rest
    let r := XFieldElement.xadd lhs rhs
    .ok { s with opStack := r.c0 :: r.c1 :: r.c2 :: rest,
                 instructionPointer := s.instructionPointer + 1 } none

/-- `VMState::instruction_xx_mul`. -/
def instructionXxMul (s : VMState) : StepRes :=
  match popExtension s.opStack with
  | none => .err .opStackTooShallow { s with opStack := [] }
  | some (lhs, rest) =>
    let rhs := peekAtTopExtension rest
    let r := XFieldElement.xmul lhs rhs
    .ok { s with opStack := r.c0 :: r.c1 :: r.c2 :: rest,
                 instructionPointer := s.instructionPointer + 1 } none

/-- `VMState::instruction_x_invert`. -/
def instructionXInvert (ext : ExternFns) (s : VMState) : StepRes :=
  match popExtension s.opStack with
  | none => .err .opStackTooShallow { s with opStack := [] }
  | some (elem, rest) =>
    if elem = XFieldElement.xzero then
      .err .inverseOfZero { s with opStack := rest }
    else
      let r := ext.xfeInverse elem
      .ok { s with opStack := r.c0 :: r.c1 :: r.c2 :: rest,
                   instructionPointer := s.instructionPointer + 1 } none

/-- `VMState::instruction_xb_mul`. -/
def instructionXbMul (s : VMState) : StepRes :=
  match s.opStack with
  | [] => .err .opStackTooShallow s
  | lhs :: rest =>
    match popExtension rest with
    | none => .err .opStackTooShallow { s with opStack := [] }
    | some (rhs, rest₂) =>
      let r := XFieldElement.xbmul lhs rhs
      .ok { s with opStack := r.c0 :: r.c1 :: r.c2 :: rest₂,
                   instructionPointer := s.instructionPointer + 1 } none

/-- `VMState::instruction_write_io`. -/
def instructionWriteIo (s : VMState) : StepRes :=
  match s.opStack with
  | [] => .err .opStackTooShallow s
  | elem :: rest =>
    .ok { s with opStack := rest, publicOutput := s.publicOutput ++ [elem],
                 instructionPointer := s.instructionPointer + 1 } none

/-- `VMState::instruction_read_io`. -/
def instructionReadIo (s : VMState) : StepRes :=
  match s.publicInput with
  | [] => .err .emptyPublicInput s
  | x :: q =>
    .ok { s with publicInput := q, opStack := x :: s.opStack,
                 instructionPointer := s.instructionPointer + 1 } none

/-- Dispatch of `VMState::step`'s central `match` over the current
instruction. -/
def executeInstruction (ext : ExternFns) (i : Instruction) (s : VMState) : StepRes :=
  match i with
  | .Pop => instructionPop s
  | .Push arg => instructionPush arg s
  | .Divine => instructionDivine s
  | .Dup arg => instructionDup arg s
  | .Swap arg => instructionSwap arg s
  | .Nop => instructionNop s
  | .Skiz => instructionSkiz s
  | .Call addr => instructionCall addr s
  | .Return => instructionReturn s
  | .Recurse => instructionRecurse s
  | .Assert => instructionAssert s
  | .Halt => instructionHalt s
  | .ReadMem => instructionReadMem s
  | .WriteMem => instructionWriteMem s
  | .Hash => instructionHash ext s
  | .AbsorbInit => instructionAbsorb ext .AbsorbInit s
  | .Absorb => instructionAbsorb ext .Absorb s
  | .Squeeze => instructionSqueeze ext s
  | .DivineSibling => instructionDivineSibling s
  | .AssertVector => instructionAssertVector s
  | .Add => instructionAdd s
  | .Mul => instructionMul s
  | .Invert => instructionInvert s
  | .Eq => instructionEq s
  | .Split => instructionSplit s
  | .Lt => instructionLt s
  | .And => instructionAnd s
  | .Xor => instructionXor s
  | .Log2Floor => instructionLog2Floor s
  | .Pow => instructionPow s
  | .Div => instructionDiv s
  | .PopCount => instructionPopCount s
  | .XxAdd => instructionXxAdd s
  | .XxMul => instructionXxMul s
  | .XInvert => instructionXInvert ext s
  | .XbMul => instructionXbMul s
  | .ReadIo => instructionReadIo s
  | .WriteIo => instructionWriteIo s

/-- One state transition (`VMState::step`): record the previous instruction,
execute the current instruction, fail if the operand stack became too shallow,
and advance the (32-bit) cycle counter. -/
def step (ext : ExternFns) (s : VMState) : StepRes :=
  match s.currentInstruction with
  | none => .err (.instructionPointerOverflow s.instructionPointer) s
  | some i =>
    let s₀ := { s with previousInstruction := i.opcodeB }
    match executeInstruction ext i s₀ with
    | .err e s₁ => .err e s₁
    | .ok s₁ call =>
      if s₁.opStack.length < 16 then .err .opStackTooShallow s₁
      else .ok { s₁ with cycleCount := (s₁.cycleCount + 1) % 2 ^ 32 } call

end VMState

/-- Modelled from the spec: `OpStack::new` creates the 16 canonical base
slots, whose deepest 5 hold the program's hash digest (padded defensively in
case the abstract digest is short). -/
def opStackNew (digest : List F) : List F :=
  List.replicate 11 0 ++ (((digest ++ List.replicate 5 0).take 5).reverse)

/-- Initial state for a given program (`VMState::new`). -/
def VMState.new (ext : ExternFns) (program : List Instruction)
    (publicInput secretInput : List F) : VMState where
  program := program
  publicInput := publicInput
  secretInput := secretInput
  publicOutput := []
  ram := fun _ => 0
  opStack := opStackNew (ext.programDigest program)
  jumpStack := []
  cycleCount := 0
  instructionPointer := 0
  previousInstruction := 0
  ramp := 0
  spongeState := List.replicate 16 0
  halting := false

/-- The columns of a processor-trace row used by the claims under scrutiny
(`VMState::to_processor_row` additionally derives helper-variable and stack
columns from the same state; no claim below depends on them). -/
structure ProcessorRow where
  clk : ℕ
  ip : ℕ
  ci : F
deriving DecidableEq

/-- `VMState::to_processor_row`, restricted to the columns above.  The CI
column records the current instruction's opcode, defaulting to `nop` when the
instruction pointer is out of bounds (`unwrap_or(Nop)`). -/
def VMState.toProcessorRow (s : VMState) : ProcessorRow where
  clk := s.cycleCount
  ip := s.instructionPointer
  ci := ((s.currentInstruction.getD .Nop).opcodeB)

/-- The Algebraic Execution Trace (`AlgebraicExecutionTrace` in `vm.rs`).
The u32 entries mirror the `HashMap` as an association list with distinct
keys in insertion order.  The program-hash trace and the cascade/lookup
multiplicities are derived from the external hash function and are not
inspected by any claim; they are not carried here. -/
structure AlgebraicExecutionTrace where
  program : List Instruction
  instructionMultiplicities : List ℕ
  processorTrace : List ProcessorRow
  hashTrace : List (List (List F))
  spongeTrace : List (Instruction × List (List F))
  u32Entries : List ((Instruction × F × F) × ℕ)

namespace AlgebraicExecutionTrace

/-- `AlgebraicExecutionTrace::new`: one multiplicity counter per b-word of the
program. -/
def new (program : List Instruction) : AlgebraicExecutionTrace where
  program := program
  instructionMultiplicities := List.replicate program.length 0
  processorTrace := []
  hashTrace := []
  spongeTrace := []
  u32Entries := []

/-- `AlgebraicExecutionTrace::processor_table_length`. -/
def processorTableLength (aet : AlgebraicExecutionTrace) : ℕ :=
  aet.processorTrace.length

/-- Incrementing one `u32` instruction-multiplicity counter. -/
def bumpMultiplicity (l : List ℕ) (i : ℕ) : List ℕ :=
  l.set i ((l.getD i 0 + 1) % 2 ^ 32)

/-- Incrementing the `u64` multiplicity of one u32-table entry
(`and_modify(+1).or_insert(1)` on the hash map). -/
def bumpU32Entry (entries : List ((Instruction × F × F) × ℕ))
    (e : Instruction × F × F) : List ((Instruction × F × F) × ℕ) :=
  if entries.any (fun p => p.1 = e) then
    entries.map fun p => if p.1 = e then (p.1, (p.2 + 1) % 2 ^ 64) else p
  else entries ++ [(e, 1)]

/-- Recording one co-processor call, as in `simulate`'s `match` on the result
of `step`. -/
def recordCall (aet : AlgebraicExecutionTrace) :
    Option CoProcessorCall → AlgebraicExecutionTrace
  | none => aet
  | some (.tip5Trace i t) =>
    if i = .Hash then { aet with hashTrace := aet.hashTrace ++ [t] }
    else { aet with spongeTrace := aet.spongeTrace ++ [(i, t)] }
  | some (.u32TableEntries es) =>
    { aet with u32Entries := es.foldl bumpU32Entry aet.u32Entries }

end AlgebraicExecutionTrace

/-- The loop of `simulate`, indexed by fuel: each iteration appends one
processor row, bumps the instruction multiplicity (failing with
`InstructionPointerOverflow` when the instruction pointer is outside the
program), performs one step, and records the co-processor call. -/
def simulateLoop (ext : ExternFns) :
    ℕ → AlgebraicExecutionTrace → VMState →
      Option (Except InstructionError (AlgebraicExecutionTrace × VMState))
  | 0, aet, s => if s.halting then some (.ok (aet, s)) else none
  | fuel + 1, aet, s =>
    if s.halting then some (.ok (aet, s))
    else
      let aet₁ := { aet with
        processorTrace := aet.processorTrace ++ [s.toProcessorRow] }
      if s.instructionPointer < aet₁.instructionMultiplicities.length then
        let aet₂ := { aet₁ with
          instructionMultiplicities :=
            AlgebraicExecutionTrace.bumpMultiplicity
              aet₁.instructionMultiplicities s.instructionPointer }
        match VMState.step ext s with
        | .err e _ => some (.error e)
        | .ok s' call => simulateLoop ext fuel (aet₂.recordCall call) s'
      else some (.error (.instructionPointerOverflow s.instructionPointer))

/-- Driver `simulate`: build an AET alongside execution and return it with the
public output.  The fuel parameter makes the unbounded Rust `while` loop a
total function; `none` means the loop was still running after `fuel`
iterations. -/
def simulate (ext : ExternFns) (fuel : ℕ) (program : List Instruction)
    (publicInput secretInput : List F) :
    Option (Except InstructionError (AlgebraicExecutionTrace × List F)) :=
  (simulateLoop ext fuel (AlgebraicExecutionTrace.new program)
      (VMState.new ext program publicInput secretInput)).map
    (Except.map fun p => (p.1, p.2.publicOutput))

/-- The loop of `run`, indexed by fuel. -/
def runLoop (ext : ExternFns) : ℕ → VMState → Option (Except InstructionError VMState)
  | 0, s => if s.halting then some (.ok s) else none
  | fuel + 1, s =>
    if s.halting then some (.ok s)
    else
      match VMState.step ext s with
      | .err e _ => some (.error e)
      | .ok s' _ => runLoop ext fuel s'

/-- Driver `run`: execute without recording a trace and return the public
output. -/
def run (ext : ExternFns) (fuel : ℕ) (program : List Instruction)
    (publicInput secretInput : List F) :
    Option (Except InstructionError (List F)) :=
  (runLoop ext fuel (VMState.new ext program publicInput secretInput)).map
    (Except.map fun s => s.publicOutput)

/-- Default cycle bound of the `debug*` drivers: `u32::MAX`. -/
def u32Max : ℕ := 2 ^ 32 - 1

/-- Cycle bound of the `debug*` drivers (`max_cycles` in `vm.rs`): the current
cycle count plus the requested number of cycles (in `u32` arithmetic), or
`u32::MAX` when no bound is requested. -/
def maxCyclesOf (numCyclesToExecute : Option ℕ) (cycle0 : ℕ) : ℕ :=
  match numCyclesToExecute with
  | some n => (cycle0 + n) % 2 ^ 32
  | none => u32Max

/-- The loop of `debug`.  The fuel starts at `max_cycles - cycle_count`; since
each successful step increments the cycle counter by exactly one (see
`step_cycleCount` below), the fuel can only run out once the guard
`cycle_count < max_cycles` has become false, so this total function agrees
with the Rust `while` loop. -/
def debugLoop (ext : ExternFns) (maxCycles : ℕ) :
    ℕ → VMState → List VMState → List VMState × Option InstructionError
  | 0, s, states => (states ++ [s], none)
  | fuel + 1, s, states =>
    if s.halting ∨ ¬ s.cycleCount < maxCycles then (states ++ [s], none)
    else
      match VMState.step ext s with
      | .err e _ => (states ++ [s], some e)
      | .ok s' _ => debugLoop ext maxCycles fuel s' (states ++ [s])

/-- Driver `debug`: snapshot every state; on failure return the states
collected so far together with the error. -/
def debug (ext : ExternFns) (program : List Instruction)
    (publicInput secretInput : List F) (initialState : Option VMState)
    (numCyclesToExecute : Option ℕ) : List VMState × Option InstructionError :=
  let s := initialState.getD (VMState.new ext program publicInput secretInput)
  let maxCycles := maxCyclesOf numCyclesToExecute s.cycleCount
  debugLoop ext maxCycles (maxCycles - s.cycleCount) s []

/-- The loop of `debug_terminal_state`; on failure the last
known-to-be-consistent state accompanies the error. -/
def debugTerminalStateLoop (ext : ExternFns) (maxCycles : ℕ) :
    ℕ → VMState → Except (InstructionError × VMState) VMState
  | 0, s => .ok s
  | fuel + 1, s =>
    if s.halting ∨ ¬ s.cycleCount < maxCycles then .ok s
    else
      match VMState.step ext s with
      | .err e _ => .error (e, s)
      | .ok s' _ => debugTerminalStateLoop ext maxCycles fuel s'

/-- Driver `debug_terminal_state`. -/
def debugTerminalState (ext : ExternFns) (program : List Instruction)
    (publicInput secretInput : List F) (initialState : Option VMState)
    (numCyclesToExecute : Option ℕ) :
    Except (InstructionError × VMState) VMState :=
  let s := initialState.getD (VMState.new ext program publicInput secretInput)
  let maxCycles := maxCyclesOf numCyclesToExecute s.cycleCount
  debugTerminalStateLoop ext maxCycles (maxCycles - s.cycleCount) s

/-! The u32 table (`table/u32.rs`). -/

/-- One row of the u32 table's base columns. -/
structure U32Row where
  copyFlag : F
  bits : F
  bitsMinus33Inv : F
  ci : F
  lhs : F
  lhsInv : F
  rhs : F
  rhsInv : F
  result : F
  lookupMultiplicity : F
deriving DecidableEq

/-- Inverse-or-zero (`BFieldElement::inverse_or_zero`). -/
def bfeInverseOrZero (x : F) : F := if x = 0 then 0 else bfeInverse x

/-- The inverse of 2 in the base field. -/
def bfeInv2 : F := ((2 ^ 63 - 2 ^ 31 + 1 : ℕ) : F)

/-- Field division by 2 after stripping the least significant bit, as done by
`u32_section_next_row` on the LHS and RHS columns. -/
def halveBfe (x : F) : F := (x - ((ZMod.val x % 2 : ℕ) : F)) * bfeInv2

/-- First row of a u32-table section (`U32Table::fill`). -/
def u32FirstRow (inst : Instruction) (lhs rhs : F) (multiplicity : ℕ) : U32Row where
  copyFlag := 1
  bits := 0
  bitsMinus33Inv := bfeInverse (-33)
  ci := inst.opcodeB
  lhs := lhs
  lhsInv := 0
  rhs := rhs
  rhsInv := 0
  result := 0
  lookupMultiplicity := (multiplicity : ℕ)

/-- Terminal `Result` value of a section's last row (`u32_section_next_row`,
first branch).  The catch-all arm is unreachable for u32 instructions. -/
def u32TerminalResult (inst : Instruction) (r : U32Row) : F :=
  let base : F :=
    match inst with
    | .Split => 0
    | .Lt => 2
    | .And => 0
    | .Log2Floor => -1
    | .Pow => 1
    | .PopCount => 0
    | _ => 0
  if inst = .Lt ∧ r.bits = 0 then 0 else base

/-- The successor row appended by `u32_section_next_row` before the recursive
call back-patches inverses and results. -/
def u32NextRow (inst : Instruction) (r : U32Row) : U32Row where
  copyFlag := 0
  bits := r.bits + 1
  bitsMinus33Inv := bfeInverse (r.bits + 1 - 33)
  ci := r.ci
  lhs := if inst = .Pow then r.lhs else halveBfe r.lhs
  lhsInv := r.lhsInv
  rhs := halveBfe r.rhs
  rhsInv := r.rhsInv
  result := r.result
  lookupMultiplicity := 0

/-- Back-patched `Result` of a non-terminal row, from the completed successor
row (`u32_section_next_row`, second half). -/
def u32BackResult (inst : Instruction) (r : U32Row) (next : U32Row) : F :=
  let lhsLsb : F := ((ZMod.val r.lhs % 2 : ℕ) : F)
  let rhsLsb : F := ((ZMod.val r.rhs % 2 : ℕ) : F)
  match inst with
  | .Split => next.result
  | .Lt =>
    if next.result = 0 ∨ next.result = 1 then next.result
    else if lhsLsb = 0 ∧ rhsLsb = 1 then 1
    else if lhsLsb = 1 ∧ rhsLsb = 0 then 0
    else if r.copyFlag = 1 then 0
    else 2
  | .And => 2 * next.result + lhsLsb * rhsLsb
  | .Log2Floor =>
    if r.lhs = 0 then -1
    else if ¬ next.lhs = 0 then next.result
    else r.bits
  | .Pow =>
    if rhsLsb = 0 then next.result * next.result
    else next.result * next.result * r.lhs
  | .PopCount => next.result + lhsLsb
  | _ => next.result

/-- One section of the u32 table, built from its first row
(`u32_section_next_row`, restructured from append-and-back-patch into
building the completed suffix; the resulting list of rows is the same).  The
instruction is carried alongside the row instead of being re-decoded from the
CI column.  The fuel bounds the recursion depth; 65 halvings suffice for any
canonical field element (see `u32SectionAux_length`). -/
def u32SectionAux (inst : Instruction) : ℕ → U32Row → List U32Row
  | 0, r => [r]
  | fuel + 1, r =>
    if (r.lhs = 0 ∨ inst = .Pow) ∧ r.rhs = 0 then
      [{ r with result := u32TerminalResult inst r,
                lhsInv := bfeInverseOrZero r.lhs }]
    else
      let rest := u32SectionAux inst fuel (u32NextRow inst r)
      let next := rest.getD 0 (u32NextRow inst r)
      { r with lhsInv := bfeInverseOrZero r.lhs,
               rhsInv := bfeInverseOrZero r.rhs,
               result := u32BackResult inst r next } :: rest

/-- The section of the u32 table generated for one entry. -/
def u32Section (inst : Instruction) (lhs rhs : F) (multiplicity : ℕ) :
    List U32Row :=
  u32SectionAux inst 65 (u32FirstRow inst lhs rhs multiplicity)

/-- `U32TableEntry::table_height_contribution`. -/
def tableHeightContribution (inst : Instruction) (lhs rhs : F) : ℕ :=
  let dominantOperand :=
    match inst with
    | .Pow => ZMod.val rhs
    | _ => max (ZMod.val lhs) (ZMod.val rhs)
  match dominantOperand with
  | 0 => 2 - 1
  | _ => 2 + Nat.log2 dominantOperand

/-- `AlgebraicExecutionTrace::u32_table_length`: the same per-entry formula,
summed over all distinct u32 entries. -/
def AlgebraicExecutionTrace.u32TableLength (aet : AlgebraicExecutionTrace) : ℕ :=
  (aet.u32Entries.map fun e =>
    let dominantOperand :=
      match e.1.1 with
      | .Pow => ZMod.val e.1.2.2
      | _ => max (ZMod.val e.1.2.1) (ZMod.val e.1.2.2)
    match dominantOperand with
    | 0 => 2 - 1
    | _ => 2 + Nat.log2 dominantOperand).sum

/-! Auxiliary lemmas about the stack helpers. -/

theorem popMultiple_eq_some_iff :
    ∀ (n : ℕ) (st xs rest : List F),
      popMultiple n st = some (xs, rest) ↔ xs.length = n ∧ st = xs ++ rest := by
  intro n
  induction n with
  | zero =>
    intro st xs rest
    constructor
    · intro h
      simp only [popMultiple, Option.some.injEq, Prod.mk.injEq] at h
      obtain ⟨rfl, rfl⟩ := h
      simp
    · rintro ⟨hlen, rfl⟩
      obtain rfl : xs = [] := List.eq_nil_of_length_eq_zero hlen
      simp [popMultiple]
  | succ n ih =>
    intro st xs rest
    cases st with
    | nil =>
      constructor
      · intro h; simp [popMultiple] at h
      · rintro ⟨h1, h2⟩
        have := congrArg List.length h2
        simp at this
        omega
    | cons x st =>
      constructor
      · intro h
        simp only [popMultiple] at h
        rcases hm : popMultiple n st with - | ⟨xs', rest'⟩ <;> rw [hm] at h
        · simp at h
        · simp only [Option.some.injEq, Prod.mk.injEq] at h
          obtain ⟨rfl, rfl⟩ := h
          obtain ⟨h1, h2⟩ := (ih st xs' rest').mp hm
          exact ⟨by simp [h1], by simp [h2]⟩
      · rintro ⟨h1, h2⟩
        cases xs with
        | nil => simp at h1
        | cons y ys =>
          simp only [List.cons_append, List.cons.injEq] at h2
          obtain ⟨rfl, rfl⟩ := h2
          simp only [popMultiple]
          rw [(ih _ ys rest).mpr ⟨by simpa using h1, rfl⟩]

theorem queuePopMultiple_eq_popMultiple : queuePopMultiple = popMultiple := by
  funext n
  induction n with
  | zero => funext q; simp [queuePopMultiple, popMultiple]
  | succ n ih =>
    funext q
    cases q with
    | nil => simp [queuePopMultiple, popMultiple]
    | cons x q => simp [queuePopMultiple, popMultiple, ih]

theorem queuePopMultiple_eq_some_iff (n : ℕ) (q xs rest : List F) :
    queuePopMultiple n q = some (xs, rest) ↔ xs.length = n ∧ q = xs ++ rest := by
  rw [queuePopMultiple_eq_popMultiple]
  exact popMultiple_eq_some_iff n q xs rest

theorem swapTop_length (st : List F) (i : ℕ) : (swapTop st i).length = st.length := by
  simp [swapTop]

theorem popExtension_eq_some_iff (st : List F) (x : XFieldElement) (rest : List F) :
    VMState.popExtension st = some (x, rest) ↔
      st = x.c0 :: x.c1 :: x.c2 :: rest := by
  obtain ⟨x0, x1, x2⟩ := x
  rcases st with - | ⟨a, - | ⟨b, - | ⟨c, t⟩⟩⟩ <;>
    simp [VMState.popExtension, popMultiple, XFieldElement.mk.injEq] <;>
    aesop

/-- Success specification of one instruction execution: the program and the
cycle counter are untouched, and the operand stack size changes by exactly
the instruction's fixed influence. -/
theorem executeInstruction_ok_spec (ext : ExternFns) (i : Instruction)
    (s s' : VMState) (call : Option CoProcessorCall)
    (h : VMState.executeInstruction ext i s = .ok s' call) :
    s'.program = s.program ∧ s'.cycleCount = s.cycleCount ∧
      (s'.opStack.length : ℤ) = s.opStack.length + i.opStackSizeInfluence := by
  cases i <;>
    simp only [VMState.executeInstruction, VMState.instructionPop,
      VMState.instructionPush, VMState.instructionDivine, VMState.instructionDup,
      VMState.instructionSwap, VMState.instructionNop, VMState.instructionSkiz,
      VMState.instructionCall, VMState.instructionReturn, VMState.instructionRecurse,
      VMState.instructionAssert, VMState.instructionHalt, VMState.instructionReadMem,
      VMState.instructionWriteMem, VMState.instructionHash, VMState.instructionAbsorb,
      VMState.instructionSqueeze, VMState.instructionDivineSibling,
      VMState.instructionAssertVector, VMState.instructionAdd, VMState.instructionMul,
      VMState.instructionInvert, VMState.instructionEq, VMState.instructionSplit,
      VMState.instructionLt, VMState.instructionAnd, VMState.instructionXor,
      VMState.instructionLog2Floor, VMState.instructionPow, VMState.instructionDiv,
      VMState.instructionPopCount, VMState.instructionXxAdd, VMState.instructionXxMul,
      VMState.instructionXInvert, VMState.instructionXbMul, VMState.instructionWriteIo,
      VMState.instructionReadIo] at h <;>
    (repeat' split at h) <;>
    (try cases h) <;>
    simp_all [Instruction.opStackSizeInfluence, swapTop_length, popMultiple_eq_some_iff,
      queuePopMultiple_eq_some_iff, popExtension_eq_some_iff,
      VMState.putKnownDigestOnCorrectSide] <;>
    (first
      | omega
      | (split <;> simp_all <;> omega))

/-- Success specification of a full step: the program is untouched, the cycle
counter advances by one (in `u32` arithmetic), and the operand stack size
changes by the current instruction's influence while staying at depth at
least 16. -/
theorem step_ok_spec (ext : ExternFns) (s s' : VMState)
    (call : Option CoProcessorCall) (h : VMState.step ext s = .ok s' call) :
    s'.program = s.program ∧ s'.cycleCount = (s.cycleCount + 1) % 2 ^ 32 ∧
      ∃ i, s.currentInstruction = some i ∧
        (s'.opStack.length : ℤ) = s.opStack.length + i.opStackSizeInfluence ∧
        16 ≤ s'.opStack.length := by
  unfold VMState.step at h
  cases hcur : s.currentInstruction with
  | none => rw [hcur] at h; cases h
  | some i =>
    rw [hcur] at h
    simp only at h
    cases hexec : VMState.executeInstruction ext i
        { s with previousInstruction := i.opcodeB } with
    | err e s₁ => rw [hexec] at h; cases h
    | ok s₁ c =>
      rw [hexec] at h
      dsimp only at h
      by_cases hlt : s₁.opStack.length < 16
      · rw [if_pos hlt] at h; cases h
      · rw [if_neg hlt] at h
        injection h with h1 h2
        subst h1; subst h2
        obtain ⟨hp, hc, hl⟩ :=
          executeInstruction_ok_spec ext i _ s₁ c hexec
        refine ⟨by simpa using hp, by simp; simp at hc; omega, i, rfl,
          by simp; simp at hl; omega, by simp; omega⟩

/-- C1: for every instruction and every state on which `step` succeeds, the
operand stack's size changes by exactly the fixed per-opcode influence
`op_stack_size_influence`, and that influence lies in `{-1, 0, +1}`. -/
theorem stack_delta_matches_influence (ext : ExternFns) (s s' : VMState)
    (call : Option CoProcessorCall) (i : Instruction)
    (hcur : s.currentInstruction = some i)
    (hstep : VMState.step ext s = .ok s' call) :
    (s'.opStack.length : ℤ) - s.opStack.length = i.opStackSizeInfluence ∧
      (i.opStackSizeInfluence = -1 ∨ i.opStackSizeInfluence = 0 ∨
        i.opStackSizeInfluence = 1) := by
  obtain ⟨-, -, j, hj, hlen, -⟩ := step_ok_spec ext s s' call hstep
  rw [hcur] at hj
  injection hj with hj
  subst hj
  refine ⟨by omega, ?_⟩
  cases i <;> simp [Instruction.opStackSizeInfluence]

/-- A trivial instantiation of the external collaborators, used only to
evaluate theorems at concrete inputs. -/
def trivialExternFns : ExternFns where
  tip5Trace := fun st => [st]
  fixedLengthInitialState := List.replicate 16 0
  variableLengthInitialState := List.replicate 16 0
  xfeInverse := id
  programDigest := fun _ => List.replicate 5 0

/-- A concrete state about to execute `pop` on a 17-deep stack. -/
def popWitnessState : VMState where
  program := [.Pop]
  publicInput := []
  secretInput := []
  publicOutput := []
  ram := fun _ => 0
  opStack := List.replicate 17 0
  jumpStack := []
  cycleCount := 0
  instructionPointer := 0
  previousInstruction := 0
  ramp := 0
  spongeState := List.replicate 16 0
  halting := false

/-- The state after executing `pop` on `popWitnessState`. -/
def popWitnessResult : VMState :=
  { popWitnessState with
      opStack := List.replicate 16 0
      previousInstruction := Instruction.opcodeB .Pop
      instructionPointer := 1
      cycleCount := 1 }

/-- Witness for C1 at the concrete instruction `pop`. -/
theorem stack_delta_matches_influence_witness :
    (popWitnessResult.opStack.length : ℤ) - popWitnessState.opStack.length =
        Instruction.opStackSizeInfluence .Pop ∧
      (Instruction.opStackSizeInfluence .Pop = -1 ∨
        Instruction.opStackSizeInfluence .Pop = 0 ∨
        Instruction.opStackSizeInfluence .Pop = 1) :=
  stack_delta_matches_influence trivialExternFns popWitnessState popWitnessResult
    none .Pop (by rfl) (by rfl)

/-- C2: all opcodes are below 256; bit 0 signals an immediate argument
(equivalently, size 2), bit 1 signals stack shrinking, and bit 2 signals a
u32 instruction. -/
theorem opcode_bit_encoding (i : Instruction) :
    Instruction.opcode i < 256 ∧
      ((Instruction.opcode i).testBit 0 = true ↔ Instruction.hasArg i = true) ∧
      (Instruction.hasArg i = true ↔ Instruction.size i = 2) ∧
      ((Instruction.opcode i).testBit 1 = true ↔ Instruction.shrinksOpStack i) ∧
      ((Instruction.opcode i).testBit 2 = true ↔ Instruction.isU32Instruction i) := by
  cases i <;>
    simp [Instruction.opcode, Instruction.hasArg, Instruction.arg, Instruction.size,
      Instruction.shrinksOpStack, Instruction.opStackSizeInfluence,
      Instruction.isU32Instruction] <;>
    (try decide)

/-- Unfolding of `step` once the current instruction is known. -/
theorem step_eq_of_current (ext : ExternFns) (s : VMState) (i : Instruction)
    (h : s.currentInstruction = some i) :
    VMState.step ext s =
      match VMState.executeInstruction ext i
          { s with previousInstruction := i.opcodeB } with
      | .err e s₁ => .err e s₁
      | .ok s₁ call =>
        if s₁.opStack.length < 16 then .err .opStackTooShallow s₁
        else .ok { s₁ with cycleCount := (s₁.cycleCount + 1) % 2 ^ 32 } call := by
  unfold VMState.step
  rw [h]

/-- Instruction size equals 2 exactly on instructions with an immediate. -/
theorem size_eq_ite_hasArg (i : Instruction) :
    i.size = if i.hasArg then 2 else 1 := by
  cases i <;> simp [Instruction.size, Instruction.hasArg, Instruction.arg]

/-- C3: `skiz` pops the top of the stack; on zero the program counter skips
the next instruction (2 slots if it carries an immediate, else 1), on
non-zero it advances by exactly 1. -/
theorem skiz_semantics (ext : ExternFns) (s : VMState) (x : F) (rest : List F)
    (hcur : s.currentInstruction = some .Skiz)
    (hstack : s.opStack = x :: rest)
    (hdepth : 16 ≤ rest.length)
    (hnext : x = 0 → (s.program.get? (s.instructionPointer + 1)).isSome) :
    ∃ s', VMState.step ext s = .ok s' none ∧ s'.opStack = rest ∧
      (∀ ni, x = 0 → s.program.get? (s.instructionPointer + 1) = some ni →
        s'.instructionPointer =
          s.instructionPointer + 1 + (if ni.hasArg then 2 else 1)) ∧
      (¬ x = 0 → s'.instructionPointer = s.instructionPointer + 1) := by
  rw [step_eq_of_current ext s _ hcur]
  simp only [VMState.executeInstruction, VMState.instructionSkiz, hstack]
  by_cases hx : x = 0
  · obtain ⟨ni, hni⟩ := Option.isSome_iff_exists.mp (hnext hx)
    have hnextInstr : VMState.nextInstruction
        { s with previousInstruction := Instruction.opcodeB .Skiz,
                 opStack := rest } = some ni := by
      unfold VMState.nextInstruction
      have hc : VMState.currentInstruction
          { s with previousInstruction := Instruction.opcodeB .Skiz,
                   opStack := rest } = some .Skiz := hcur
      rw [hc]
      exact hni
    rw [if_pos hx, hnextInstr]
    dsimp only
    rw [if_neg (by simp; omega)]
    refine ⟨_, rfl, rfl, ?_, ?_⟩
    · intro ni' _ hni'
      rw [hni] at hni'
      injection hni' with hni'
      subst hni'
      simp [size_eq_ite_hasArg]
    · intro hx'; exact absurd hx hx'
  · rw [if_neg hx]
    dsimp only
    rw [if_neg (by simp; omega)]
    refine ⟨_, rfl, rfl, ?_, ?_⟩
    · intro ni' hx0 _; exact absurd hx0 hx
    · intro _; simp

/-- A concrete state about to execute `skiz` on a zero with a `push`
instruction next. -/
def skizWitnessState : VMState :=
  { popWitnessState with
      program := [.Skiz, .Push 5, .Push 5, .Halt]
      opStack := 0 :: List.replicate 16 0 }

/-- Witness for C3 at a concrete `skiz` over a zero. -/
theorem skiz_semantics_witness :
    ∃ s', VMState.step trivialExternFns skizWitnessState = .ok s' none ∧
      s'.opStack = List.replicate 16 0 ∧
      (∀ ni, (0 : F) = 0 →
        skizWitnessState.program.get? (skizWitnessState.instructionPointer + 1) =
          some ni →
        s'.instructionPointer =
          skizWitnessState.instructionPointer + 1 +
            (if ni.hasArg then 2 else 1)) ∧
      (¬ (0 : F) = 0 →
        s'.instructionPointer = skizWitnessState.instructionPointer + 1) :=
  skiz_semantics trivialExternFns skizWitnessState 0 (List.replicate 16 0)
    (by rfl) (by rfl) (by simp) (fun _ => by rfl)

/-- C4 (amended): `divine_sibling` pops and discards `ST0..ST4`, pops the
known digest from `ST5..ST9` and the u32 node index `n` from `ST10`, pushes
`n/2`, reads 5 secret inputs as the sibling digest (reversed), and leaves the
two digests on the stack as (known, sibling) if `n` is even and
(sibling, known) if `n` is odd. -/
theorem divine_sibling_semantics (ext : ExternFns) (s : VMState)
    (top5 known : List F) (ni : F) (rest sib q : List F)
    (hcur : s.currentInstruction = some .DivineSibling)
    (hstack : s.opStack = top5 ++ known ++ ni :: rest)
    (htop : top5.length = 5) (hknown : known.length = 5)
    (hni : ZMod.val ni < 2 ^ 32)
    (hsecret : s.secretInput = sib ++ q) (hsib : sib.length = 5)
    (hdepth : 5 ≤ rest.length) :
    VMState.step ext s =
      .ok { s with
              previousInstruction := Instruction.opcodeB .DivineSibling,
              opStack :=
                (if ZMod.val ni % 2 = 0 then known ++ sib.reverse
                 else sib.reverse ++ known) ++
                  ((ZMod.val ni / 2 : ℕ) : F) :: rest,
              secretInput := q,
              instructionPointer := s.instructionPointer + 1,
              cycleCount := (s.cycleCount + 1) % 2 ^ 32 } none := by
  rw [step_eq_of_current ext s _ hcur]
  have h5a : popMultiple 5 s.opStack = some (top5, known ++ ni :: rest) :=
    (popMultiple_eq_some_iff _ _ _ _).mpr ⟨htop, by rw [hstack]; simp⟩
  have h5b : popMultiple 5 (known ++ ni :: rest) = some (known, ni :: rest) :=
    (popMultiple_eq_some_iff _ _ _ _).mpr ⟨hknown, rfl⟩
  have hq : queuePopMultiple 5 s.secretInput = some (sib, q) :=
    (queuePopMultiple_eq_some_iff _ _ _ _).mpr ⟨hsib, hsecret⟩
  simp only [VMState.executeInstruction, VMState.instructionDivineSibling,
    h5a, h5b, hq, VMState.putKnownDigestOnCorrectSide]
  rw [if_pos hni]
  dsimp only
  by_cases hpar : ZMod.val ni % 2 = 0 <;>
    simp only [hpar, if_pos, if_neg, if_true, if_false] <;>
    rw [if_neg (by simp [hknown, hsib]; omega)] <;>
    simp [hpar]

/-- A concrete state about to execute `divine_sibling`, with the top five
stack elements distinct from the five below them. -/
def divineSiblingCounterState : VMState :=
  { popWitnessState with
      program := [.DivineSibling]
      opStack := [1, 2, 3, 4, 5, 6, 7, 8, 9, 10, 4] ++ List.replicate 5 0
      secretInput := [11, 12, 13, 14, 15] }

/-- The state actually produced by `step` on `divineSiblingCounterState`. -/
def divineSiblingCounterResult : VMState :=
  { divineSiblingCounterState with
      previousInstruction := Instruction.opcodeB .DivineSibling
      opStack := [6, 7, 8, 9, 10, 15, 14, 13, 12, 11, 2] ++ List.replicate 5 0
      secretInput := []
      instructionPointer := 1
      cycleCount := 1 }

/-- Counterexample for C4 as stated: the digest left in `ST0..ST4` (here the
even-index "known" side) is the five elements formerly at `ST5..ST9`, not the
popped top five, so the claim's "pops the top-5 known digest" fails. -/
theorem divine_sibling_counterexample :
    VMState.step trivialExternFns divineSiblingCounterState =
        .ok divineSiblingCounterResult none ∧
      divineSiblingCounterResult.opStack.take 5 ≠
        divineSiblingCounterState.opStack.take 5 := by
  constructor
  · rfl
  · decide

/-- Witness for C4's amended theorem at the same concrete state. -/
theorem divine_sibling_semantics_witness :
    VMState.step trivialExternFns divineSiblingCounterState =
      .ok { divineSiblingCounterState with
              previousInstruction := Instruction.opcodeB .DivineSibling,
              opStack :=
                (if ZMod.val (4 : F) % 2 = 0 then
                  [6, 7, 8, 9, 10] ++ [11, 12, 13, 14, 15].reverse
                 else [11, 12, 13, 14, 15].reverse ++ [6, 7, 8, 9, 10]) ++
                  ((ZMod.val (4 : F) / 2 : ℕ) : F) :: List.replicate 5 0,
              secretInput := [],
              instructionPointer := divineSiblingCounterState.instructionPointer + 1,
              cycleCount := (divineSiblingCounterState.cycleCount + 1) % 2 ^ 32 }
        none :=
  divine_sibling_semantics trivialExternFns divineSiblingCounterState
    [1, 2, 3, 4, 5] [6, 7, 8, 9, 10] 4 (List.replicate 5 0)
    [11, 12, 13, 14, 15] []
    (by rfl) (by rfl) (by rfl) (by rfl) (by decide) (by rfl) (by rfl) (by simp)

/-- C5 (amended): `div` fails with `DivisionByZero` exactly on a zero
denominator; on success it pushes remainder over quotient and emits an `lt`
and a `split` u32 entry; in the error case the state is unchanged except for
the two popped operands and the already-updated previous-instruction
register. -/
theorem div_semantics (ext : ExternFns) (s : VMState) (a b : F) (rest : List F)
    (hcur : s.currentInstruction = some .Div)
    (hstack : s.opStack = a :: b :: rest)
    (ha : ZMod.val a < 2 ^ 32) (hb : ZMod.val b < 2 ^ 32)
    (hdepth : 14 ≤ rest.length) :
    (b = 0 →
      VMState.step ext s =
        .err .divisionByZero
          { s with previousInstruction := Instruction.opcodeB .Div,
                   opStack := rest }) ∧
    (¬ b = 0 →
      VMState.step ext s =
        .ok { s with
                previousInstruction := Instruction.opcodeB .Div,
                opStack := ((ZMod.val a % ZMod.val b : ℕ) : F) ::
                  ((ZMod.val a / ZMod.val b : ℕ) : F) :: rest,
                instructionPointer := s.instructionPointer + 1,
                cycleCount := (s.cycleCount + 1) % 2 ^ 32 }
          (some (.u32TableEntries
            [(.Lt, ((ZMod.val a % ZMod.val b : ℕ) : F), ((ZMod.val b : ℕ) : F)),
             (.Split, ((ZMod.val a : ℕ) : F),
               ((ZMod.val a / ZMod.val b : ℕ) : F))]))) := by
  rw [step_eq_of_current ext s _ hcur]
  simp only [VMState.executeInstruction, VMState.instructionDiv, hstack]
  rw [if_pos ha]
  try dsimp only
  rw [if_pos hb]
  constructor
  · intro hb0
    rw [if_pos (by rw [ZMod.val_eq_zero]; exact hb0)]
  · intro hb0
    rw [if_neg (by rw [ZMod.val_eq_zero]; exact hb0)]
    dsimp only
    rw [if_neg (by simp; omega)]

/-- A concrete `div` by zero whose previous-instruction register changes. -/
def divCounterState : VMState :=
  { popWitnessState with
      program := [.Div]
      opStack := 7 :: 0 :: List.replicate 15 0 }

/-- Counterexample for C5 as stated: on `DivisionByZero` the failing state
differs from the original not only in the two popped operands but also in the
previous-instruction register, which `step` updates before executing the
instruction. -/
theorem div_counterexample :
    VMState.step trivialExternFns divCounterState =
        .err .divisionByZero
          { divCounterState with
              previousInstruction := Instruction.opcodeB .Div,
              opStack := List.replicate 15 0 } ∧
      ¬ (Instruction.opcodeB .Div = divCounterState.previousInstruction) := by
  constructor
  · rfl
  · decide

/-- A concrete `div` with denominator 2. -/
def divWitnessState : VMState :=
  { popWitnessState with
      program := [.Div]
      opStack := 7 :: 2 :: List.replicate 14 0 }

/-- Witness for C5's amended theorem at numerator 7, denominator 2. -/
theorem div_semantics_witness :
    ((2 : F) = 0 →
      VMState.step trivialExternFns divWitnessState =
        .err .divisionByZero
          { divWitnessState with
              previousInstruction := Instruction.opcodeB .Div,
              opStack := List.replicate 14 0 }) ∧
    (¬ (2 : F) = 0 →
      VMState.step trivialExternFns divWitnessState =
        .ok { divWitnessState with
                previousInstruction := Instruction.opcodeB .Div,
                opStack := ((ZMod.val (7 : F) % ZMod.val (2 : F) : ℕ) : F) ::
                  ((ZMod.val (7 : F) / ZMod.val (2 : F) : ℕ) : F) ::
                    List.replicate 14 0,
                instructionPointer := divWitnessState.instructionPointer + 1,
                cycleCount := (divWitnessState.cycleCount + 1) % 2 ^ 32 }
          (some (.u32TableEntries
            [(.Lt, ((ZMod.val (7 : F) % ZMod.val (2 : F) : ℕ) : F),
               ((ZMod.val (2 : F) : ℕ) : F)),
             (.Split, ((ZMod.val (7 : F) : ℕ) : F),
               ((ZMod.val (7 : F) / ZMod.val (2 : F) : ℕ) : F))]))) :=
  div_semantics trivialExternFns divWitnessState 7 2 (List.replicate 14 0)
    (by rfl) (by rfl) (by decide) (by decide) (by simp)

/-- Binary addition decomposes into xor plus twice the carry bits. -/
theorem nat_xor_add_two_mul_and : ∀ a b : ℕ, (a ^^^ b) + 2 * (a &&& b) = a + b := by
  intro a
  induction a using Nat.strong_induction_on with
  | _ a ih =>
    intro b
    rcases Nat.eq_zero_or_pos a with rfl | hpos
    · simp
    · have ihh := ih (a / 2) (Nat.div_lt_self hpos (by norm_num)) (b / 2)
      have h1 : (a ^^^ b) % 2 = (a + b) % 2 := Nat.xor_mod_two_eq
      have h2 : (a ^^^ b) / 2 = a / 2 ^^^ b / 2 := Nat.xor_div_two
      have h3 : (a &&& b) / 2 = a / 2 &&& b / 2 := Nat.and_div_two
      have h4 : ((a &&& b) % 2 = 1) ↔ (a % 2 = 1 ∧ b % 2 = 1) := by
        rw [Nat.mod_two_eq_one_iff_testBit_zero, Nat.mod_two_eq_one_iff_testBit_zero,
          Nat.mod_two_eq_one_iff_testBit_zero, Nat.testBit_and, Bool.and_eq_true]
      omega

/-- C6: `xor` pushes `a ⊕ b`, which equals `a + b - 2·(a ∧ b)` in the field,
and emits a u32 co-processor entry tagged `and` carrying the original
operands. -/
theorem xor_semantics (ext : ExternFns) (s : VMState) (a b : F) (rest : List F)
    (hcur : s.currentInstruction = some .Xor)
    (hstack : s.opStack = a :: b :: rest)
    (ha : ZMod.val a < 2 ^ 32) (hb : ZMod.val b < 2 ^ 32)
    (hdepth : 15 ≤ rest.length) :
    VMState.step ext s =
      .ok { s with
              previousInstruction := Instruction.opcodeB .Xor,
              opStack := ((ZMod.val a ^^^ ZMod.val b : ℕ) : F) :: rest,
              instructionPointer := s.instructionPointer + 1,
              cycleCount := (s.cycleCount + 1) % 2 ^ 32 }
        (some (.u32TableEntries
          [(.And, ((ZMod.val a : ℕ) : F), ((ZMod.val b : ℕ) : F))])) ∧
      ((ZMod.val a ^^^ ZMod.val b : ℕ) : F) =
        a + b - 2 * ((ZMod.val a &&& ZMod.val b : ℕ) : F) ∧
      ((ZMod.val a : ℕ) : F) = a ∧ ((ZMod.val b : ℕ) : F) = b := by
  have hca : ((ZMod.val a : ℕ) : F) = a := ZMod.natCast_zmod_val a
  have hcb : ((ZMod.val b : ℕ) : F) = b := ZMod.natCast_zmod_val b
  refine ⟨?_, ?_, hca, hcb⟩
  · rw [step_eq_of_current ext s _ hcur]
    simp only [VMState.executeInstruction, VMState.instructionXor, hstack]
    rw [if_pos ha]
    try dsimp only
    rw [if_pos hb]
    try dsimp only
    rw [if_neg (by simp; omega)]
  · have hnat := nat_xor_add_two_mul_and (ZMod.val a) (ZMod.val b)
    have hcast := congrArg (fun n : ℕ => (n : F)) hnat
    push_cast at hcast
    rw [hca, hcb] at hcast
    linear_combination hcast

/-- A concrete `xor` of 6 and 5. -/
def xorWitnessState : VMState :=
  { popWitnessState with
      program := [.Xor]
      opStack := 6 :: 5 :: List.replicate 15 0 }

/-- Witness for C6 at operands 6 and 5. -/
theorem xor_semantics_witness :
    VMState.step trivialExternFns xorWitnessState =
      .ok { xorWitnessState with
              previousInstruction := Instruction.opcodeB .Xor,
              opStack := ((ZMod.val (6 : F) ^^^ ZMod.val (5 : F) : ℕ) : F) ::
                List.replicate 15 0,
              instructionPointer := xorWitnessState.instructionPointer + 1,
              cycleCount := (xorWitnessState.cycleCount + 1) % 2 ^ 32 }
        (some (.u32TableEntries
          [(.And, ((ZMod.val (6 : F) : ℕ) : F), ((ZMod.val (5 : F) : ℕ) : F))])) ∧
      ((ZMod.val (6 : F) ^^^ ZMod.val (5 : F) : ℕ) : F) =
        (6 : F) + 5 - 2 * ((ZMod.val (6 : F) &&& ZMod.val (5 : F) : ℕ) : F) ∧
      ((ZMod.val (6 : F) : ℕ) : F) = 6 ∧ ((ZMod.val (5 : F) : ℕ) : F) = 5 :=
  xor_semantics trivialExternFns xorWitnessState 6 5 (List.replicate 15 0)
    (by rfl) (by rfl) (by decide) (by decide) (by simp)

/-! Height accounting for the u32 table. -/

theorem two_mul_bfeInv2 : (2 : F) * bfeInv2 = 1 := by
  have h2 : (2 * (2 ^ 63 - 2 ^ 31 + 1) : ℕ) = P + 1 := by norm_num [P]
  calc (2 : F) * bfeInv2
      = ((2 : ℕ) : F) * ((2 ^ 63 - 2 ^ 31 + 1 : ℕ) : F) := by rw [bfeInv2]; norm_num
    _ = ((2 * (2 ^ 63 - 2 ^ 31 + 1) : ℕ) : F) := by rw [← Nat.cast_mul]
    _ = ((P + 1 : ℕ) : F) := by rw [h2]
    _ = (P : F) + 1 := by push_cast; ring
    _ = 1 := by rw [ZMod.natCast_self]; ring

theorem halveBfe_val (x : F) : ZMod.val (halveBfe x) = ZMod.val x / 2 := by
  have hv : ZMod.val x < P := ZMod.val_lt x
  have hb : ZMod.val x % 2 ≤ ZMod.val x := Nat.mod_le _ _
  have hx : (x - ((ZMod.val x % 2 : ℕ) : F)) =
      ((ZMod.val x - ZMod.val x % 2 : ℕ) : F) := by
    rw [Nat.cast_sub hb, ZMod.natCast_zmod_val]
  have h2 : ZMod.val x - ZMod.val x % 2 = 2 * (ZMod.val x / 2) := by omega
  have h3 : ((2 * (ZMod.val x / 2) : ℕ) : F) * bfeInv2 =
      ((ZMod.val x / 2 : ℕ) : F) := by
    push_cast
    rw [mul_comm (2 : F), mul_assoc, two_mul_bfeInv2, mul_one]
  rw [halveBfe, hx, h2, h3, ZMod.val_natCast_of_lt (by omega)]

/-- The operand dominating a u32-table section's height, read off a row. -/
def u32DominantOf (inst : Instruction) (r : U32Row) : ℕ :=
  match inst with
  | .Pow => ZMod.val r.rhs
  | _ => max (ZMod.val r.lhs) (ZMod.val r.rhs)

theorem u32DominantOf_ne_pow (inst : Instruction) (h : ¬ inst = .Pow)
    (r : U32Row) :
    u32DominantOf inst r = max (ZMod.val r.lhs) (ZMod.val r.rhs) := by
  cases inst <;> first | exact absurd rfl h | rfl

theorem u32Done_iff (inst : Instruction) (r : U32Row) :
    ((r.lhs = 0 ∨ inst = .Pow) ∧ r.rhs = 0) ↔ u32DominantOf inst r = 0 := by
  by_cases hpow : inst = .Pow
  · subst hpow
    simp [u32DominantOf, ← ZMod.val_eq_zero]
  · rw [u32DominantOf_ne_pow _ hpow]
    simp [hpow, Nat.max_eq_zero_iff, ← ZMod.val_eq_zero]

theorem nat_max_div_two (a b : ℕ) : max (a / 2) (b / 2) = max a b / 2 := by
  omega

theorem u32DominantOf_nextRow (inst : Instruction) (r : U32Row) :
    u32DominantOf inst (u32NextRow inst r) = u32DominantOf inst r / 2 := by
  by_cases hpow : inst = .Pow
  · subst hpow
    simp [u32DominantOf, u32NextRow, halveBfe_val]
  · rw [u32DominantOf_ne_pow _ hpow, u32DominantOf_ne_pow _ hpow]
    simp [u32NextRow, hpow, halveBfe_val, nat_max_div_two]

theorem u32SectionAux_length (inst : Instruction) :
    ∀ (fuel : ℕ) (r : U32Row), u32DominantOf inst r < 2 ^ fuel →
      (u32SectionAux inst fuel r).length =
        if u32DominantOf inst r = 0 then 1
        else 2 + Nat.log2 (u32DominantOf inst r) := by
  intro fuel
  induction fuel with
  | zero =>
    intro r h
    have hd : u32DominantOf inst r = 0 := by simpa using h
    simp [u32SectionAux, hd]
  | succ fuel ih =>
    intro r h
    by_cases hdone : (r.lhs = 0 ∨ inst = .Pow) ∧ r.rhs = 0
    · have hd : u32DominantOf inst r = 0 := (u32Done_iff inst r).mp hdone
      have : u32SectionAux inst (fuel + 1) r =
          [{ r with result := u32TerminalResult inst r,
                    lhsInv := bfeInverseOrZero r.lhs }] := by
        rw [u32SectionAux, if_pos hdone]
      simp [this, hd]
    · have hd : ¬ u32DominantOf inst r = 0 :=
        fun h0 => hdone ((u32Done_iff inst r).mpr h0)
      have hstep : u32SectionAux inst (fuel + 1) r =
          { r with lhsInv := bfeInverseOrZero r.lhs,
                   rhsInv := bfeInverseOrZero r.rhs,
                   result := u32BackResult inst r
                     ((u32SectionAux inst fuel (u32NextRow inst r)).getD 0
                       (u32NextRow inst r)) } ::
            u32SectionAux inst fuel (u32NextRow inst r) := by
        rw [u32SectionAux, if_neg hdone]
      have hpow2 : (2 : ℕ) ^ (fuel + 1) = 2 * 2 ^ fuel := by ring
      have hnd : u32DominantOf inst (u32NextRow inst r) < 2 ^ fuel := by
        rw [u32DominantOf_nextRow]; omega
      rw [hstep]
      simp only [List.length_cons, ih _ hnd, u32DominantOf_nextRow]
      by_cases hd1 : u32DominantOf inst r / 2 = 0
      · have hone : u32DominantOf inst r = 1 := by omega
        rw [if_pos hd1, if_neg hd, hone]
        rw [Nat.log2]
        norm_num
      · have hge2 : 2 ≤ u32DominantOf inst r := by omega
        rw [if_neg hd1, if_neg hd]
        conv_rhs => rw [Nat.log2]
        rw [if_pos hge2]
        omega

/-- C7: the section generated for a u32-table entry with u32 operands has
`2 + ⌊log2 dominant⌋` rows (1 row when the dominant operand is 0), and the
u32 table length reported by the AET is the sum of these section heights over
all distinct entries. -/
theorem u32_table_height_accounting (aet : AlgebraicExecutionTrace)
    (inst : Instruction) (lhs rhs : F) (mult : ℕ)
    (hl : ZMod.val lhs < 2 ^ 32) (hr : ZMod.val rhs < 2 ^ 32)
    (hentries : ∀ e ∈ aet.u32Entries,
      ZMod.val e.1.2.1 < 2 ^ 32 ∧ ZMod.val e.1.2.2 < 2 ^ 32) :
    (u32Section inst lhs rhs mult).length = tableHeightContribution inst lhs rhs ∧
      aet.u32TableLength =
        (aet.u32Entries.map fun e =>
          (u32Section e.1.1 e.1.2.1 e.1.2.2 e.2).length).sum := by
  have hgen : ∀ (i : Instruction) (l r : F) (m : ℕ),
      (u32Section i l r m).length = tableHeightContribution i l r := by
    intro i l r m
    have hdom : u32DominantOf i (u32FirstRow i l r m) < 2 ^ 65 := by
      have hlv := ZMod.val_lt l
      have hrv := ZMod.val_lt r
      have hP : P < 2 ^ 65 := by norm_num [P]
      by_cases hpow : i = .Pow
      · subst hpow; simp only [u32DominantOf, u32FirstRow]; omega
      · rw [u32DominantOf_ne_pow _ hpow]; simp only [u32FirstRow]; omega
    have := u32SectionAux_length i 65 (u32FirstRow i l r m) hdom
    rw [u32Section, this]
    by_cases hpow : i = .Pow
    · subst hpow
      simp only [u32DominantOf, u32FirstRow, tableHeightContribution]
      rcases Nat.eq_zero_or_pos (ZMod.val r) with h0 | h0
      · simp [h0]
      · rw [if_neg (by omega)]
        cases hv : ZMod.val r with
        | zero => omega
        | succ n => rfl
    · rw [u32DominantOf_ne_pow _ hpow]
      simp only [u32FirstRow]
      have hth : tableHeightContribution i l r =
          match max (ZMod.val l) (ZMod.val r) with
          | 0 => 2 - 1
          | _ => 2 + Nat.log2 (max (ZMod.val l) (ZMod.val r)) := by
        unfold tableHeightContribution
        cases i <;> first | exact absurd rfl hpow | rfl
      rw [hth]
      rcases Nat.eq_zero_or_pos (max (ZMod.val l) (ZMod.val r)) with h0 | h0
      · simp [h0]
      · rw [if_neg (by omega)]
        cases hv : max (ZMod.val l) (ZMod.val r) with
        | zero => omega
        | succ n => rfl
  refine ⟨hgen inst lhs rhs mult, ?_⟩
  unfold AlgebraicExecutionTrace.u32TableLength
  congr 1
  apply List.map_congr_left
  intro e _
  rw [hgen e.1.1 e.1.2.1 e.1.2.2 e.2]
  unfold tableHeightContribution
  rfl

/-- A concrete AET holding one u32 entry, `and 3 5`. -/
def u32WitnessAet : AlgebraicExecutionTrace :=
  { AlgebraicExecutionTrace.new [] with u32Entries := [((.And, 3, 5), 2)] }

/-- Witness for C7 at entry `(and, 3, 5)`. -/
theorem u32_table_height_accounting_witness :
    (u32Section .And 3 5 2).length = tableHeightContribution .And 3 5 ∧
      u32WitnessAet.u32TableLength =
        (u32WitnessAet.u32Entries.map fun e =>
          (u32Section e.1.1 e.1.2.1 e.1.2.2 e.2).length).sum :=
  u32_table_height_accounting u32WitnessAet .And 3 5 2
    (by decide) (by decide)
    (by intro e he; simp [u32WitnessAet, AlgebraicExecutionTrace.new] at he;
        rw [he]; exact ⟨by decide, by decide⟩)

/-! Equivalence of `run` and `simulate`. -/

theorem recordCall_multiplicities (aet : AlgebraicExecutionTrace)
    (c : Option CoProcessorCall) :
    (aet.recordCall c).instructionMultiplicities = aet.instructionMultiplicities := by
  cases c with
  | none => rfl
  | some cc =>
    cases cc with
    | tip5Trace i t =>
      simp only [AlgebraicExecutionTrace.recordCall]
      split <;> rfl
    | u32TableEntries es => rfl

theorem recordCall_processorTrace (aet : AlgebraicExecutionTrace)
    (c : Option CoProcessorCall) :
    (aet.recordCall c).processorTrace = aet.processorTrace := by
  cases c with
  | none => rfl
  | some cc =>
    cases cc with
    | tip5Trace i t =>
      simp only [AlgebraicExecutionTrace.recordCall]
      split <;> rfl
    | u32TableEntries es => rfl

theorem step_of_ip_overflow (ext : ExternFns) (s : VMState)
    (h : s.currentInstruction = none) :
    VMState.step ext s = .err (.instructionPointerOverflow s.instructionPointer) s := by
  unfold VMState.step
  rw [h]

theorem simulateLoop_map_eq_runLoop (ext : ExternFns) :
    ∀ (fuel : ℕ) (aet : AlgebraicExecutionTrace) (s : VMState),
      aet.instructionMultiplicities.length = s.program.length →
      (simulateLoop ext fuel aet s).map (Except.map Prod.snd) =
        runLoop ext fuel s := by
  intro fuel
  induction fuel with
  | zero =>
    intro aet s hlen
    simp only [simulateLoop, runLoop]
    split <;> simp [Except.map]
  | succ fuel ih =>
    intro aet s hlen
    simp only [simulateLoop, runLoop]
    by_cases hH : s.halting
    · simp [hH, Except.map]
    · simp only [hH, if_false, Bool.false_eq_true]
      by_cases hip : s.instructionPointer < aet.instructionMultiplicities.length
      · rw [if_pos hip]
        cases hstep : VMState.step ext s with
        | err e s₁ => simp [Except.map]
        | ok s' call =>
          apply ih
          rw [recordCall_multiplicities]
          simp only [AlgebraicExecutionTrace.bumpMultiplicity, List.length_set]
          rw [hlen, (step_ok_spec ext s s' call hstep).1]
      · rw [if_neg hip]
        have hcur : s.currentInstruction = none := by
          unfold VMState.currentInstruction
          rw [List.get?_eq_none]
          omega
        rw [step_of_ip_overflow ext s hcur]
        simp [Except.map]

/-- C8: `run` has exactly the semantics of `simulate` with the trace
discarded: for every fuel bound, either both are still running, or both fail
with the same error, or both succeed and `run`'s output is `simulate`'s
output component. -/
theorem run_eq_simulate_without_trace (ext : ExternFns) (fuel : ℕ)
    (program : List Instruction) (publicInput secretInput : List F) :
    run ext fuel program publicInput secretInput =
      (simulate ext fuel program publicInput secretInput).map
        (Except.map Prod.snd) := by
  unfold run simulate
  rw [← simulateLoop_map_eq_runLoop ext fuel (AlgebraicExecutionTrace.new program)
    (VMState.new ext program publicInput secretInput)
    (by simp [AlgebraicExecutionTrace.new, VMState.new])]
  rcases simulateLoop ext fuel (AlgebraicExecutionTrace.new program)
      (VMState.new ext program publicInput secretInput) with - | r
  · rfl
  · rcases r with e | ⟨aet, st⟩ <;> rfl

/-! Row and multiplicity accounting for `simulate`. -/

theorem getD_set_nat (l : List ℕ) (i v a : ℕ) (hi : i < l.length) :
    (l.set i v).getD a 0 = if a = i then v else l.getD a 0 := by
  by_cases h : a = i
  · subst h
    simp [List.getD_eq_getElem?_getD, List.getElem?_set_self', List.getElem?_eq_getElem hi]
  · simp [List.getD_eq_getElem?_getD, List.getElem?_set_ne (Ne.symm h), h]

theorem getD_replicate_zero (n a : ℕ) :
    (List.replicate n (0 : ℕ)).getD a 0 = 0 := by
  simp [List.getD_eq_getElem?_getD, List.getElem?_replicate]
  split <;> simp

theorem list_sum_eq_range_getD (l : List ℕ) :
    l.sum = ∑ i in Finset.range l.length, l.getD i 0 := by
  induction l with
  | nil => simp
  | cons x t ih =>
    rw [List.length_cons, Finset.sum_range_succ']
    simp [ih]
    omega

theorem filter_ip_partition (rows : List ProcessorRow) (len : ℕ)
    (h : ∀ r ∈ rows, r.ip < len) :
    ∑ a in Finset.range len, (rows.filter fun r => r.ip = a).length =
      rows.length := by
  induction rows with
  | nil => simp
  | cons r t ih =>
    have hr : r.ip < len := h r (by simp)
    have ht : ∀ x ∈ t, x.ip < len := fun x hx => h x (by simp [hx])
    have hsplit : ∀ a, (((r :: t).filter fun x => x.ip = a).length : ℕ) =
        ((t.filter fun x => x.ip = a).length) + if r.ip = a then 1 else 0 := by
      intro a
      simp only [List.filter_cons]
      by_cases hra : r.ip = a <;> simp [hra]
    calc ∑ a in Finset.range len, (((r :: t).filter fun x => x.ip = a).length)
        = ∑ a in Finset.range len,
            (((t.filter fun x => x.ip = a).length) + if r.ip = a then 1 else 0) :=
          Finset.sum_congr rfl fun a _ => hsplit a
      _ = (∑ a in Finset.range len, ((t.filter fun x => x.ip = a).length)) +
            ∑ a in Finset.range len, (if r.ip = a then 1 else 0) :=
          Finset.sum_add_distrib
      _ = t.length + 1 := by
          rw [ih ht]
          congr 1
          rw [Finset.sum_ite_eq (Finset.range len) r.ip (fun _ => 1)]
          simp [Finset.mem_range.mpr hr]
      _ = (r :: t).length := by simp

theorem simulateLoop_ok_invariant (ext : ExternFns) :
    ∀ (fuel : ℕ) (aet : AlgebraicExecutionTrace) (s : VMState)
      (aetF : AlgebraicExecutionTrace) (sF : VMState),
      s.cycleCount < 2 ^ 32 →
      (∀ a, aet.instructionMultiplicities.getD a 0 < 2 ^ 32) →
      simulateLoop ext fuel aet s = some (.ok (aetF, sF)) →
      ∃ rows : List ProcessorRow,
        aetF.processorTrace = aet.processorTrace ++ rows ∧
        sF.cycleCount = (s.cycleCount + rows.length) % 2 ^ 32 ∧
        aetF.instructionMultiplicities.length =
          aet.instructionMultiplicities.length ∧
        (∀ r ∈ rows, r.ip < aet.instructionMultiplicities.length) ∧
        (∀ a : ℕ, aetF.instructionMultiplicities.getD a 0 =
          (aet.instructionMultiplicities.getD a 0 +
            (rows.filter fun r => r.ip = a).length) % 2 ^ 32) ∧
        sF.halting = true := by
  intro fuel
  induction fuel with
  | zero =>
    intro aet s aetF sF hc hmult h
    simp only [simulateLoop] at h
    split at h
    · simp only [Option.some.injEq, Except.ok.injEq, Prod.mk.injEq] at h
      obtain ⟨rfl, rfl⟩ := h
      refine ⟨[], by simp, ?_, rfl, by simp, ?_, by assumption⟩
      · simp only [List.length_nil, Nat.add_zero]
        exact (Nat.mod_eq_of_lt hc).symm
      · intro a
        simp only [List.filter_nil, List.length_nil, Nat.add_zero]
        exact (Nat.mod_eq_of_lt (hmult a)).symm
    · cases h
  | succ fuel ih =>
    intro aet s aetF sF hc hmult h
    simp only [simulateLoop] at h
    split at h
    · simp only [Option.some.injEq, Except.ok.injEq, Prod.mk.injEq] at h
      obtain ⟨rfl, rfl⟩ := h
      refine ⟨[], by simp, ?_, rfl, by simp, ?_, by assumption⟩
      · simp only [List.length_nil, Nat.add_zero]
        exact (Nat.mod_eq_of_lt hc).symm
      · intro a
        simp only [List.filter_nil, List.length_nil, Nat.add_zero]
        exact (Nat.mod_eq_of_lt (hmult a)).symm
    · rename_i hnotHalt
      split at h
      · rename_i hip
        split at h
        · cases h
        · rename_i s' call hstep
          obtain ⟨hprog, hcyc, -⟩ := step_ok_spec ext s s' call hstep
          have hip' : s.instructionPointer < aet.instructionMultiplicities.length := hip
          obtain ⟨rows', hr1, hr2, hr3, hr4, hr5, hhalt⟩ :=
            ih _ s' aetF sF
              (by rw [hcyc]; exact Nat.mod_lt _ (by norm_num))
              (by
                intro a
                rw [recordCall_multiplicities]
                simp only [AlgebraicExecutionTrace.bumpMultiplicity]
                rw [getD_set_nat _ _ _ _ hip']
                split
                · exact Nat.mod_lt _ (by norm_num)
                · exact hmult a)
              h
          rw [recordCall_multiplicities] at hr3 hr4 hr5
          simp only [AlgebraicExecutionTrace.bumpMultiplicity, List.length_set]
            at hr3 hr4
          rw [recordCall_processorTrace] at hr1
          refine ⟨s.toProcessorRow :: rows', ?_, ?_, hr3, ?_, ?_, hhalt⟩
          · dsimp only at hr1
            rw [hr1, List.append_assoc]
            rfl
          · rw [hr2, hcyc]
            simp only [List.length_cons]
            omega
          · intro r hrm
            rcases List.mem_cons.mp hrm with rfl | hrm
            · simpa [VMState.toProcessorRow] using hip'
            · exact hr4 r hrm
          · intro a
            rw [hr5 a]
            dsimp only
            simp only [AlgebraicExecutionTrace.bumpMultiplicity]
            rw [getD_set_nat _ _ _ _ hip']
            simp only [List.filter_cons]
            by_cases ha : a = s.instructionPointer
            · subst ha
              rw [if_pos rfl]
              have hd : decide (s.toProcessorRow.ip = s.instructionPointer) = true := by
                simp [VMState.toProcessorRow]
              rw [hd]
              simp only [if_true, List.length_cons]
              omega
            · rw [if_neg ha]
              have hd : decide (s.toProcessorRow.ip = a) = false := by
                simp [VMState.toProcessorRow]
                omega
              rw [hd]
              simp only [if_false, Bool.false_eq_true]
      · cases h

/-- C10: when `simulate` succeeds (within any fuel bound and fewer than
`2^32` cycles), the processor trace has exactly one row per cycle, the final
cycle count equals the row count, the instruction multiplicities sum to the
row count, and each multiplicity counts exactly the cycles spent at its
program address. -/
theorem aet_trace_accounting (ext : ExternFns) (fuel : ℕ)
    (program : List Instruction) (publicInput secretInput : List F)
    (aetF : AlgebraicExecutionTrace) (out : List F)
    (h : simulate ext fuel program publicInput secretInput =
      some (.ok (aetF, out)))
    (hshort : aetF.processorTrace.length < 2 ^ 32) :
    (∃ sF, simulateLoop ext fuel (AlgebraicExecutionTrace.new program)
        (VMState.new ext program publicInput secretInput) =
        some (.ok (aetF, sF)) ∧ out = sF.publicOutput ∧
        sF.cycleCount = aetF.processorTrace.length) ∧
      aetF.instructionMultiplicities.sum = aetF.processorTrace.length ∧
      ∀ a : ℕ, aetF.instructionMultiplicities.getD a 0 =
        (aetF.processorTrace.filter fun r => r.ip = a).length := by
  unfold simulate at h
  rcases hloop : simulateLoop ext fuel (AlgebraicExecutionTrace.new program)
      (VMState.new ext program publicInput secretInput) with - | r
  · rw [hloop] at h; cases h
  · rw [hloop] at h
    rcases r with e | ⟨aet₀, sF⟩
    · cases h
    · simp only [Option.map_some', Except.map, Option.some.injEq,
        Except.ok.injEq, Prod.mk.injEq] at h
      obtain ⟨rfl, rfl⟩ := h
      obtain ⟨rows, hr1, hr2, hr3, hr4, hr5, -⟩ :=
        simulateLoop_ok_invariant ext fuel _ _ aet₀ sF
          (by simp [VMState.new])
          (by intro a; simp [AlgebraicExecutionTrace.new, getD_replicate_zero])
          hloop
      have hrows : aet₀.processorTrace = rows := by
        simpa [AlgebraicExecutionTrace.new] using hr1
      subst hrows
      have hcount : ∀ a : ℕ, aet₀.instructionMultiplicities.getD a 0 =
          (aet₀.processorTrace.filter fun r => r.ip = a).length := by
        intro a
        rw [hr5 a]
        simp only [AlgebraicExecutionTrace.new, getD_replicate_zero, Nat.zero_add]
        exact Nat.mod_eq_of_lt
          (lt_of_le_of_lt (List.length_filter_le _ _) hshort)
      refine ⟨⟨sF, rfl, rfl, ?_⟩, ?_, hcount⟩
      · rw [hr2]
        simp only [VMState.new, Nat.zero_add]
        exact Nat.mod_eq_of_lt hshort
      · rw [list_sum_eq_range_getD]
        have hlen : aet₀.instructionMultiplicities.length = program.length := by
          simpa [AlgebraicExecutionTrace.new] using hr3
        rw [hlen]
        have hbound : ∀ r ∈ aet₀.processorTrace, r.ip < program.length := by
          intro r hr
          have := hr4 r hr
          simpa [AlgebraicExecutionTrace.new] using this
        calc ∑ i in Finset.range program.length,
              aet₀.instructionMultiplicities.getD i 0
            = ∑ i in Finset.range program.length,
                (aet₀.processorTrace.filter fun r => r.ip = i).length :=
              Finset.sum_congr rfl fun i _ => hcount i
          _ = aet₀.processorTrace.length :=
              filter_ip_partition _ _ hbound

/-- The AET produced by simulating the one-instruction program `halt`. -/
def haltWitnessAet : AlgebraicExecutionTrace where
  program := [.Halt]
  instructionMultiplicities := [1]
  processorTrace := [⟨0, 0, Instruction.opcodeB .Halt⟩]
  hashTrace := []
  spongeTrace := []
  u32Entries := []

/-- Witness for C10 on the program `halt`. -/
theorem aet_trace_accounting_witness :
    (∃ sF, simulateLoop trivialExternFns 1 (AlgebraicExecutionTrace.new [.Halt])
        (VMState.new trivialExternFns [.Halt] [] []) =
        some (.ok (haltWitnessAet, sF)) ∧ ([] : List F) = sF.publicOutput ∧
        sF.cycleCount = haltWitnessAet.processorTrace.length) ∧
      haltWitnessAet.instructionMultiplicities.sum =
        haltWitnessAet.processorTrace.length ∧
      ∀ a : ℕ, haltWitnessAet.instructionMultiplicities.getD a 0 =
        (haltWitnessAet.processorTrace.filter fun r => r.ip = a).length :=
  aet_trace_accounting trivialExternFns 1 [.Halt] [] [] haltWitnessAet []
    (by rfl) (by norm_num [haltWitnessAet])

/-! Termination of the `debug*` drivers. -/

theorem debugLoop_stops (ext : ExternFns) (maxCycles : ℕ)
    (hmax : maxCycles < 2 ^ 32) :
    ∀ (fuel : ℕ) (s : VMState) (states : List VMState),
      maxCycles ≤ s.cycleCount + fuel →
      (debugLoop ext maxCycles fuel s states).2 ≠ none ∨
        ∃ sl, (debugLoop ext maxCycles fuel s states).1.getLast? = some sl ∧
          (sl.halting = true ∨ maxCycles ≤ sl.cycleCount) := by
  intro fuel
  induction fuel with
  | zero =>
    intro s states hfuel
    right
    exact ⟨s, by simp [debugLoop], Or.inr (by omega)⟩
  | succ fuel ih =>
    intro s states hfuel
    by_cases hstop : s.halting = true ∨ ¬ s.cycleCount < maxCycles
    · right
      refine ⟨s, ?_, ?_⟩
      · simp only [debugLoop, if_pos hstop]
        simp
      · rcases hstop with hs | hs
        · exact Or.inl hs
        · exact Or.inr (by omega)
    · simp only [debugLoop, if_neg hstop]
      push_neg at hstop
      obtain ⟨-, hlt⟩ := hstop
      cases hstep : VMState.step ext s with
      | err e s₁ => left; simp
      | ok s' call =>
        have hcyc : s'.cycleCount = s.cycleCount + 1 := by
          have := (step_ok_spec ext s s' call hstep).2.1
          rw [this, Nat.mod_eq_of_lt (by omega)]
        exact ih s' (states ++ [s]) (by omega)

theorem debugTerminalStateLoop_stops (ext : ExternFns) (maxCycles : ℕ)
    (hmax : maxCycles < 2 ^ 32) :
    ∀ (fuel : ℕ) (s : VMState),
      maxCycles ≤ s.cycleCount + fuel →
      (∃ p, debugTerminalStateLoop ext maxCycles fuel s = .error p) ∨
        ∃ sF, debugTerminalStateLoop ext maxCycles fuel s = .ok sF ∧
          (sF.halting = true ∨ maxCycles ≤ sF.cycleCount) := by
  intro fuel
  induction fuel with
  | zero =>
    intro s hfuel
    right
    exact ⟨s, rfl, Or.inr (by omega)⟩
  | succ fuel ih =>
    intro s hfuel
    by_cases hstop : s.halting = true ∨ ¬ s.cycleCount < maxCycles
    · right
      refine ⟨s, ?_, ?_⟩
      · simp only [debugTerminalStateLoop, if_pos hstop]
      · rcases hstop with hs | hs
        · exact Or.inl hs
        · exact Or.inr (by omega)
    · simp only [debugTerminalStateLoop, if_neg hstop]
      push_neg at hstop
      obtain ⟨-, hlt⟩ := hstop
      cases hstep : VMState.step ext s with
      | err e s₁ => left; exact ⟨(e, s), rfl⟩
      | ok s' call =>
        have hcyc : s'.cycleCount = s.cycleCount + 1 := by
          have := (step_ok_spec ext s s' call hstep).2.1
          rw [this, Nat.mod_eq_of_lt (by omega)]
        exact ih s' (by omega)

/-- C9 (amended): with `num_cycles_to_execute = None`, `debug` and
`debug_terminal_state` stop once the VM halts or the default bound
`u32::MAX = 2^32 - 1` on the cycle counter is reached (or an error occurs):
neither loops forever, even on a non-halting program. -/
theorem debug_default_bound_termination (ext : ExternFns)
    (program : List Instruction) (publicInput secretInput : List F)
    (initialState : Option VMState) :
    ((debug ext program publicInput secretInput initialState none).2 ≠ none ∨
      ∃ sl, (debug ext program publicInput secretInput
          initialState none).1.getLast? = some sl ∧
        (sl.halting = true ∨ u32Max ≤ sl.cycleCount)) ∧
    ((∃ p, debugTerminalState ext program publicInput secretInput
        initialState none = .error p) ∨
      ∃ sF, debugTerminalState ext program publicInput secretInput
          initialState none = .ok sF ∧
        (sF.halting = true ∨ u32Max ≤ sF.cycleCount)) := by
  constructor
  · unfold debug
    simp only [maxCyclesOf]
    exact debugLoop_stops ext u32Max (by norm_num [u32Max]) _ _ []
      (by omega)
  · unfold debugTerminalState
    simp only [maxCyclesOf]
    exact debugTerminalStateLoop_stops ext u32Max (by norm_num [u32Max]) _ _
      (by omega)

/-- Counterexample for C9 as stated: the default cycle bound installed by the
`debug*` drivers is `u32::MAX = 2^32 - 1`, not `2^32`. -/
theorem debug_default_bound_counterexample :
    maxCyclesOf none 0 = 2 ^ 32 - 1 ∧ ¬ maxCyclesOf none 0 = 2 ^ 32 := by
  constructor <;> norm_num [maxCyclesOf, u32Max]

end TritonVM
